import Mathlib

/-!
A change-data-capture sink: Kafka product events replayed into MongoDB.

Shallow embedding of `main.go`.  The program reads one Kafka message at a time,
decodes its JSON key or value, deletes or upserts one document of the `product`
collection and then commits the message.

The functions of `main.go` (`ToDecimal`, `DeleteProduct`, `SaveProduct`, the body of the
loop of `main`) are translated statement by statement.  The library calls they make
(`base64.StdEncoding.DecodeString`, `big.Int.SetBytes`,
`primitive.ParseDecimal128FromBigInt`, `json.Unmarshal`, `Collection.DeleteOne`,
`Collection.UpdateOne`, `Consumer.CommitMessage`) are not part of the repository; each is
given a model of its documented behaviour, marked as such in its doc comment.

Conventions.
* A call to `log.Panic`, or a run-time panic, ends the process: it is a value of `Panic`.
* Go `int` and `int64` are 64 bit; a value of these types is an `Int` of the range
  `-2^63 .. 2^63-1`, and arithmetic that can leave the range wraps (`wrapInt64`).
* Go strings and byte slices holding text are Lean strings (the text the bytes encode).
* A call to the store or to the broker is an input of the iteration: whether it returns an
  error is given by `Env`, and a call that returns an error is taken to have changed nothing.
* A `time.Time` is only copied by the program.  Which texts `Time.UnmarshalJSON` accepts
  depends on the Go release, so the parser of time texts is a parameter, `parseTime`.
* `InitRoot` (the connections) and the line printed by `fmt.Println` are outside the model.
-/

namespace ProductSink

/-- The ways one iteration of the program can end the process. -/
inductive Panic where
  /-- `log.Panic` after `Consumer.ReadMessage` returned an error (line 149) -/
  | readMessage
  /-- `log.Panic` after `json.Unmarshal` of the key returned an error (line 158) -/
  | unmarshalKey
  /-- `log.Panic` after `json.Unmarshal` of the value returned an error (line 165) -/
  | unmarshalValue
  /-- run-time panic of `kafkaMsg.Before.Id` on a nil `Before` (line 169) -/
  | nilDereference
  /-- `log.Panic` after `base64.StdEncoding.DecodeString` returned an error (line 97) -/
  | base64
  /-- `log.Panic` after `Collection.DeleteOne` returned an error (line 115) -/
  | deleteOne
  /-- `log.Panic` after `Collection.UpdateOne` returned an error (line 139) -/
  | updateOne
  /-- `log.Panic` after `Consumer.CommitMessage` returned an error (line 177) -/
  | commitMessage
  deriving DecidableEq, Repr

/-! ## Machine integers -/

/-- Two's-complement wrap-around of a Go `int` (64 bit). -/
def wrapInt64 (x : Int) : Int := (x + 2 ^ 63) % 2 ^ 64 - 2 ^ 63

/-- The values of a Go `int` or `int64`. -/
def InInt64 (x : Int) : Prop := -2 ^ 63 ≤ x ∧ x < 2 ^ 63

instance (x : Int) : Decidable (InInt64 x) := by
  unfold InInt64; exact inferInstance

/-! ## `encoding/base64` -/

/-- Value of a character of the standard base64 alphabet (`A-Z a-z 0-9 + /`). -/
def b64Value (c : Char) : Option Nat :=
  let n := c.toNat
  if 65 ≤ n ∧ n ≤ 90 then some (n - 65)
  else if 97 ≤ n ∧ n ≤ 122 then some (n - 97 + 26)
  else if 48 ≤ n ∧ n ≤ 57 then some (n - 48 + 52)
  else if n = 43 then some 62
  else if n = 47 then some 63
  else none

/-- The three bytes of a full quantum of four 6-bit values. -/
def quantumBytes (x y z w : Nat) : Nat × Nat × Nat :=
  let val := x * 2 ^ 18 + y * 2 ^ 12 + z * 2 ^ 6 + w
  (val / 2 ^ 16 % 256, val / 2 ^ 8 % 256, val % 256)

/-- Decoding of the quanta of a base64 text from which line breaks were removed: groups of
four alphabet characters give three bytes each; the last group may be `xx==` (one byte) or
`xxx=` (two bytes); the unused low bits of a padded group are not checked (the encoding is
not strict); anything else is a `CorruptInputError` (`none`). -/
def decodeQuanta : List Char → Option (List Nat)
  | [] => some []
  | a :: b :: c :: d :: rest =>
    match b64Value a, b64Value b with
    | some x, some y =>
      if c = '=' then
        if d = '=' ∧ rest = [] then some [(quantumBytes x y 0 0).1] else none
      else
        match b64Value c with
        | none => none
        | some z =>
          if d = '=' then
            if rest = [] then
              some [(quantumBytes x y z 0).1, (quantumBytes x y z 0).2.1]
            else none
          else
            match b64Value d with
            | none => none
            | some w =>
              (decodeQuanta rest).map fun t =>
                (quantumBytes x y z w).1 :: (quantumBytes x y z w).2.1 ::
                  (quantumBytes x y z w).2.2 :: t
    | _, _ => none
  | _ => none

/-- Model of `base64.StdEncoding.DecodeString` (Go standard library): standard alphabet,
`=` padding required, carriage returns and line feeds ignored.  `none` is a returned
error. -/
def DecodeString (s : String) : Option (List Nat) :=
  decodeQuanta (s.data.filter fun c => c ≠ '\n' ∧ c ≠ '\r')

/-! ## `math/big` -/

/-- Model of `big.Int.SetBytes` (Go standard library): the bytes read as a big-endian
unsigned integer. -/
def SetBytes (bytes : List Nat) : Nat :=
  bytes.foldl (fun acc b => acc * 256 + b) 0

/-! ## `bson/primitive`: Decimal128 -/

/-- A `primitive.Decimal128`: the two 64-bit words of an IEEE 754-2008 decimal128 in
binary integer decimal encoding. -/
structure Decimal128 where
  h : Nat
  l : Nat
  deriving DecidableEq, Repr

/-- The constant `primitive.MaxDecimal128Exp`. -/
def MaxDecimal128Exp : Int := 6111

/-- The constant `primitive.MinDecimal128Exp`. -/
def MinDecimal128Exp : Int := -6176

/-- The package variable `maxS`: the largest coefficient, 34 nines. -/
def maxS : Nat := 9999999999999999999999999999999999

/-- First loop of `ParseDecimal128FromBigInt`:
`for bigIntCmpAbs(bi, maxS) == 1 { bi, _ = q.QuoRem(bi, ten, r); if r != 0 { return false };
exp++; if exp > MaxDecimal128Exp { return false } }`.
`QuoRem` is truncated division; `exp++` is on a Go `int`. -/
def normalizeLoop (bi exp : Int) : Option (Int × Int) :=
  if maxS < bi.natAbs then
    if bi.tmod 10 ≠ 0 then none
    else
      let exp1 := wrapInt64 (exp + 1)
      if exp1 > MaxDecimal128Exp then none
      else normalizeLoop (bi.tdiv 10) exp1
  else some (bi, exp)
termination_by bi.natAbs
decreasing_by
  have hdiv : (bi.tdiv 10).natAbs = bi.natAbs / 10 := Int.natAbs_tdiv bi 10
  simp only [maxS] at *
  omega

/-- Second loop of `ParseDecimal128FromBigInt` (subnormal values):
`for exp < MinDecimal128Exp { bi, _ = q.QuoRem(bi, ten, r); if r != 0 { return false };
exp++ }`.  Here `exp++` cannot overflow. -/
def subnormalLoop (bi exp : Int) : Option (Int × Int) :=
  if exp < MinDecimal128Exp then
    if bi.tmod 10 ≠ 0 then none
    else subnormalLoop (bi.tdiv 10) (exp + 1)
  else some (bi, exp)
termination_by (MinDecimal128Exp - exp).toNat
decreasing_by
  simp only [MinDecimal128Exp] at *
  omega

/-- Third loop of `ParseDecimal128FromBigInt` (clamped values):
`for exp > MaxDecimal128Exp { bi.Mul(bi, ten); if bigIntCmpAbs(bi, maxS) == 1 { return false };
exp-- }`.  Here `exp--` cannot overflow. -/
def clampLoop (bi exp : Int) : Option (Int × Int) :=
  if exp > MaxDecimal128Exp then
    if maxS < (bi * 10).natAbs then none
    else clampLoop (bi * 10) (exp - 1)
  else some (bi, exp)
termination_by (exp - MaxDecimal128Exp).toNat
decreasing_by
  simp only [MaxDecimal128Exp] at *
  omega

/-- Tail of `ParseDecimal128FromBigInt`: the words of the result.  The byte loop puts the
low eight bytes of `|bi|` into `l` and the bytes above them into `h`; then
`h |= uint64(exp-MinDecimal128Exp) & uint64(1<<14-1) << 49` and, for a negative `bi`,
`h |= 1 << 63`. -/
def packDecimal128 (bi exp : Int) : Decimal128 :=
  let h0 := bi.natAbs / 2 ^ 64 % 2 ^ 64
  let l := bi.natAbs % 2 ^ 64
  let biased := ((exp - MinDecimal128Exp) % 2 ^ 64).toNat
  let h1 := h0 ||| (((biased &&& (2 ^ 14 - 1)) <<< 49) % 2 ^ 64)
  let h2 := if bi < 0 then h1 ||| (1 <<< 63) else h1
  { h := h2, l := l }

/-- Model of `primitive.ParseDecimal128FromBigInt(bi, exp)` (MongoDB Go driver): the
Decimal128 with coefficient `bi` and exponent `exp`, after moving powers of ten between the
two where that is exact; `none` is the result `false`.  (Later releases of the driver bring
the exponent of a zero coefficient into the range before the loops; the loops give the
same result.) -/
def ParseDecimal128FromBigInt (bi exp : Int) : Option Decimal128 :=
  match normalizeLoop bi exp with
  | none => none
  | some (bi1, exp1) =>
    match subnormalLoop bi1 exp1 with
    | none => none
    | some (bi2, exp2) =>
      match clampLoop bi2 exp2 with
      | none => none
      | some (bi3, exp3) => some (packDecimal128 bi3 exp3)

/-- Model of `Decimal128.BigInt()` (MongoDB Go driver): the coefficient and the exponent a
Decimal128 denotes; `none` for NaN and the infinities. -/
def Decimal128.BigInt (d : Decimal128) : Option (Int × Int) :=
  let posSign := (d.h >>> 63) &&& 1 = 0
  let top := (d.h >>> 58) &&& (2 ^ 5 - 1)
  if top = 0x1F then none
  else if top = 0x1E then none
  else
    let exp : Nat :=
      if (d.h >>> 61) &&& 3 = 3 then (d.h >>> 47) &&& (2 ^ 14 - 1)
      else (d.h >>> 49) &&& (2 ^ 14 - 1)
    let high : Nat := if (d.h >>> 61) &&& 3 = 3 then 0 else d.h &&& (2 ^ 49 - 1)
    let low : Nat := if (d.h >>> 61) &&& 3 = 3 then 0 else d.l
    let bi : Int := (high * 2 ^ 64 + low : Nat)
    some (if posSign then bi else -bi, (exp : Int) + MinDecimal128Exp)

/-- The rational number a Decimal128 denotes: coefficient times ten to the exponent. -/
def Decimal128.value (d : Decimal128) : Option ℚ :=
  d.BigInt.map fun ce => (ce.1 : ℚ) * (10 : ℚ) ^ ce.2

/-! ## `main.go`: the wire structures -/

/-- The struct `KafkaWeight`. -/
structure KafkaWeight where
  Scale : Int
  Value : String
  deriving DecidableEq, Repr

/-- The method `(*KafkaWeight).ToDecimal` (lines 90-107). -/
def KafkaWeight.ToDecimal : Option KafkaWeight → Except Panic (Option Decimal128)
  | none => .ok none
  | some weight =>
    match DecodeString weight.Value with
    | none => .error Panic.base64
    | some bytes =>
      let value : Int := SetBytes bytes
      match ParseDecimal128FromBigInt value (wrapInt64 (-weight.Scale)) with
      | none => .ok none
      | some result => .ok (some result)

/-! ## `encoding/json`: the scanner

`json.Unmarshal` first checks the whole text against the JSON grammar (RFC 8259) and only
then stores values.  The grammar is modelled by a lexer and a pushdown parser, both plain
folds over their input. -/

/-- A JSON value as the scanner delimits it.  A number keeps its literal text; a string and
a member name keep the text between the quotes, escapes not yet resolved. -/
inductive JSON where
  | null
  | bool (b : Bool)
  | number (raw : List Char)
  | string (raw : List Char)
  | array (items : List JSON)
  | object (members : List (List Char × JSON))

/-- The tokens of a JSON text. -/
inductive Token where
  | lbrace | rbrace | lbracket | rbracket | colon | comma
  | string (raw : List Char)
  | number (raw : List Char)
  | null
  | bool (b : Bool)

/-- Where the lexer stands inside a number literal. -/
inductive NumState where
  | neg | zero | int | dot | frac | e | esign | exp
  deriving DecidableEq

/-- Where the lexer stands inside a string literal: plain text, right after a backslash, or
inside `\u` with `k` hexadecimal digits still to come. -/
inductive StrState where
  | plain
  | esc
  | hex (k : Nat)

/-- State of the lexer.  Texts being collected are kept reversed. -/
inductive LexState where
  | ready
  | str (raw : List Char) (st : StrState)
  | num (raw : List Char) (st : NumState)
  | lit (expected : List Char) (tok : Token)

/-- Decimal digit. -/
def isDigit (c : Char) : Bool := 48 ≤ c.toNat && c.toNat ≤ 57

/-- Hexadecimal digit. -/
def isHexDigit (c : Char) : Bool :=
  isDigit c || (97 ≤ c.toNat && c.toNat ≤ 102) || (65 ≤ c.toNat && c.toNat ≤ 70)

/-- JSON white space: space, tab, line feed, carriage return. -/
def isSpace (c : Char) : Bool := c = ' ' || c = '\t' || c = '\n' || c = '\r'

/-- A number literal may end in this state. -/
def NumState.accepting : NumState → Bool
  | .zero | .int | .frac | .exp => true
  | _ => false

/-- The state of a number literal after one more character, if it continues it. -/
def NumState.next (st : NumState) (c : Char) : Option NumState :=
  match st with
  | .neg => if c = '0' then some .zero else if isDigit c then some .int else none
  | .zero => if c = '.' then some .dot else if c = 'e' ∨ c = 'E' then some .e else none
  | .int =>
    if isDigit c then some .int else if c = '.' then some .dot
    else if c = 'e' ∨ c = 'E' then some .e else none
  | .dot => if isDigit c then some .frac else none
  | .frac => if isDigit c then some .frac else if c = 'e' ∨ c = 'E' then some .e else none
  | .e => if c = '+' ∨ c = '-' then some .esign else if isDigit c then some .exp else none
  | .esign => if isDigit c then some .exp else none
  | .exp => if isDigit c then some .exp else none

/-- One character read between tokens. -/
def lexReady (c : Char) : Option (LexState × List Token) :=
  if isSpace c then some (.ready, [])
  else if c = '\x7b' then some (.ready, [.lbrace])
  else if c = '\x7d' then some (.ready, [.rbrace])
  else if c = '[' then some (.ready, [.lbracket])
  else if c = ']' then some (.ready, [.rbracket])
  else if c = ':' then some (.ready, [.colon])
  else if c = ',' then some (.ready, [.comma])
  else if c = '"' then some (.str [] .plain, [])
  else if c = '-' then some (.num [c] .neg, [])
  else if c = '0' then some (.num [c] .zero, [])
  else if isDigit c then some (.num [c] .int, [])
  else if c = 't' then some (.lit ['r', 'u', 'e'] (.bool true), [])
  else if c = 'f' then some (.lit ['a', 'l', 's', 'e'] (.bool false), [])
  else if c = 'n' then some (.lit ['u', 'l', 'l'] .null, [])
  else none

/-- One step of the lexer: the next state and the tokens completed by the character;
`none` is a syntax error. -/
def lexStep (st : LexState) (c : Char) : Option (LexState × List Token) :=
  match st with
  | .ready => lexReady c
  | .str raw .plain =>
    if c = '"' then some (.ready, [.string raw.reverse])
    else if c = '\\' then some (.str (c :: raw) .esc, [])
    else if c.toNat < 0x20 then none
    else some (.str (c :: raw) .plain, [])
  | .str raw .esc =>
    if c = 'u' then some (.str (c :: raw) (.hex 4), [])
    else if c = 'b' ∨ c = 'f' ∨ c = 'n' ∨ c = 'r' ∨ c = 't' ∨ c = '\\' ∨ c = '/' ∨ c = '"' then
      some (.str (c :: raw) .plain, [])
    else none
  | .str raw (.hex k) =>
    if isHexDigit c then
      some (.str (c :: raw) (if k ≤ 1 then .plain else .hex (k - 1)), [])
    else none
  | .num raw ns =>
    match ns.next c with
    | some ns1 => some (.num (c :: raw) ns1, [])
    | none =>
      if ns.accepting then
        (lexReady c).map fun r => (r.1, Token.number raw.reverse :: r.2)
      else none
  | .lit [] tok => (lexReady c).map fun r => (r.1, tok :: r.2)
  | .lit (x :: xs) tok => if c = x then some (.lit xs tok, []) else none

/-- The lexer: all tokens of a text. -/
def lex : LexState → List Char → Option (List Token)
  | .ready, [] => some []
  | .num raw ns, [] => if ns.accepting then some [.number raw.reverse] else none
  | .lit [] tok, [] => some [tok]
  | _, [] => none
  | st, c :: cs =>
    match lexStep st c with
    | none => none
    | some (st1, toks) => (lex st1 cs).map fun rest => toks ++ rest

/-- An open container of the parser, its content so far in reverse order; an object also
holds the member name whose value is awaited. -/
inductive Frame where
  | array (items : List JSON)
  | object (members : List (List Char × JSON)) (key : Option (List Char))

/-- What the parser expects next. -/
inductive Phase where
  | value | valueOrEnd | keyOrEnd | key | colon | afterValue | done
  deriving DecidableEq

/-- State of the parser: the open containers, innermost first, the expectation, and the
finished top-level value. -/
structure ParseState where
  stack : List Frame
  phase : Phase
  result : Option JSON

/-- A value is complete: it is the top-level value or goes into the innermost container. -/
def ParseState.complete (stack : List Frame) (v : JSON) : Option ParseState :=
  match stack with
  | [] => some { stack := [], phase := .done, result := some v }
  | .array items :: fs =>
    some { stack := .array (v :: items) :: fs, phase := .afterValue, result := none }
  | .object members (some k) :: fs =>
    some { stack := .object ((k, v) :: members) none :: fs, phase := .afterValue, result := none }
  | .object _ none :: _ => none

/-- A token where a value may begin. -/
def ParseState.beginValue (stack : List Frame) (tok : Token) : Option ParseState :=
  match tok with
  | .string raw => ParseState.complete stack (.string raw)
  | .number raw => ParseState.complete stack (.number raw)
  | .null => ParseState.complete stack .null
  | .bool b => ParseState.complete stack (.bool b)
  | .lbrace => some { stack := .object [] none :: stack, phase := .keyOrEnd, result := none }
  | .lbracket => some { stack := .array [] :: stack, phase := .valueOrEnd, result := none }
  | _ => none

/-- One step of the parser; `none` is a syntax error. -/
def parseStep (st : ParseState) (tok : Token) : Option ParseState :=
  match st.phase, tok, st.stack with
  | .value, tok, stack => ParseState.beginValue stack tok
  | .valueOrEnd, .rbracket, .array items :: fs =>
    ParseState.complete fs (.array items.reverse)
  | .valueOrEnd, tok, stack => ParseState.beginValue stack tok
  | .keyOrEnd, .rbrace, .object members none :: fs =>
    ParseState.complete fs (.object members.reverse)
  | .keyOrEnd, .string raw, .object members none :: fs =>
    some { stack := .object members (some raw) :: fs, phase := .colon, result := none }
  | .key, .string raw, .object members none :: fs =>
    some { stack := .object members (some raw) :: fs, phase := .colon, result := none }
  | .colon, .colon, stack => some { stack := stack, phase := .value, result := none }
  | .afterValue, .comma, .array items :: fs =>
    some { stack := .array items :: fs, phase := .value, result := none }
  | .afterValue, .comma, .object members none :: fs =>
    some { stack := .object members none :: fs, phase := .key, result := none }
  | .afterValue, .rbracket, .array items :: fs =>
    ParseState.complete fs (.array items.reverse)
  | .afterValue, .rbrace, .object members none :: fs =>
    ParseState.complete fs (.object members.reverse)
  | _, _, _ => none

/-- The parser: the steps over all tokens. -/
def parseTokens : ParseState → List Token → Option ParseState
  | st, [] => some st
  | st, tok :: toks =>
    match parseStep st tok with
    | none => none
    | some st1 => parseTokens st1 toks

/-- The JSON value a text consists of; `none` is the `SyntaxError` of `json.Unmarshal`
(also for a text with no value or with more than one). -/
def parseJSON (text : String) : Option JSON :=
  match lex .ready text.data with
  | none => none
  | some toks =>
    match parseTokens { stack := [], phase := .value, result := none } toks with
    | some { stack := [], phase := .done, result := some v } => some v
    | _ => none

/-! ## `encoding/json`: storing values into the structs of `main.go` -/

/-- Value of a hexadecimal digit. -/
def hexValue (c : Char) : Nat :=
  if isDigit c then c.toNat - 48
  else if 97 ≤ c.toNat ∧ c.toNat ≤ 102 then c.toNat - 87
  else c.toNat - 55

/-- Code unit written as four hexadecimal digits. -/
def hex4 (a b c d : Char) : Nat :=
  hexValue a * 4096 + hexValue b * 256 + hexValue c * 16 + hexValue d

/-- The character a one-letter escape stands for. -/
def escapeChar (c : Char) : Char :=
  if c = 'b' then Char.ofNat 8
  else if c = 'f' then Char.ofNat 12
  else if c = 'n' then '\n'
  else if c = 'r' then '\r'
  else if c = 't' then '\t'
  else c

/-- The characters a `\\u` escape with code unit `rr` contributes, and the high surrogate
left pending after it.  `pending` is the high surrogate of the escape right before: with a
low surrogate it forms one character, otherwise it becomes U+FFFD. -/
def unquoteUnit (pending : Option Nat) (rr : Nat) : List Char × Option Nat :=
  let isHigh := 0xD800 ≤ rr ∧ rr < 0xDC00
  let isLow := 0xDC00 ≤ rr ∧ rr < 0xE000
  match pending with
  | some hi =>
    if isLow then ([Char.ofNat (0x10000 + (hi - 0xD800) * 0x400 + (rr - 0xDC00))], none)
    else if isHigh then ([Char.ofNat 0xFFFD], some rr)
    else ([Char.ofNat 0xFFFD, Char.ofNat rr], none)
  | none =>
    if isHigh then ([], some rr)
    else if isLow then ([Char.ofNat 0xFFFD], none)
    else ([Char.ofNat rr], none)

/-- A pending high surrogate that found no partner. -/
def flushPending (pending : Option Nat) : List Char :=
  match pending with
  | some _ => [Char.ofNat 0xFFFD]
  | none => []

/-- The text of a string literal with its escapes resolved, read left to right.  Two `\\u`
escapes that form a UTF-16 surrogate pair give one character; a surrogate without its
partner gives U+FFFD. -/
def unquoteFrom (pending : Option Nat) : List Char → List Char
  | [] => flushPending pending
  | c :: rest =>
    if c = '\\' then
      match rest with
      | [] => flushPending pending
      | e :: rest1 =>
        if e = 'u' then
          match rest1 with
          | h1 :: h2 :: h3 :: h4 :: rest2 =>
            (unquoteUnit pending (hex4 h1 h2 h3 h4)).1 ++
              unquoteFrom (unquoteUnit pending (hex4 h1 h2 h3 h4)).2 rest2
          | _ => flushPending pending
        else flushPending pending ++ escapeChar e :: unquoteFrom none rest1
    else flushPending pending ++ c :: unquoteFrom none rest

/-- Model of the decoder's `unquote`: the text a string literal stands for. -/
def unquote (raw : List Char) : List Char := unquoteFrom none raw

/-- Letter case folded as the decoder folds member names: ASCII letters to upper case, and
the two non-ASCII characters whose case folding is an ASCII letter (U+017F, U+212A). -/
def foldChar (c : Char) : Char :=
  if 97 ≤ c.toNat ∧ c.toNat ≤ 122 then Char.ofNat (c.toNat - 32)
  else if c.toNat = 0x17F then 'S'
  else if c.toNat = 0x212A then 'K'
  else c

/-- A member name selects the struct field with this `json` tag: equal up to letter case. -/
def fieldMatches (tag : String) (key : List Char) : Bool :=
  (unquote key).map foldChar = tag.data.map foldChar

/-- Value of a run of decimal digits; `none` if empty or not all digits. -/
def parseDigits (ds : List Char) : Option Nat :=
  if ds ≠ [] ∧ ds.all isDigit then
    some (ds.foldl (fun acc c => acc * 10 + (c.toNat - 48)) 0)
  else none

/-- Model of `strconv.ParseInt(s, 10, 64)`: an optional sign and decimal digits, the value
within the range of `int64`. -/
def ParseInt (raw : List Char) : Option Int :=
  let signed : Option Int :=
    match raw with
    | [] => none
    | c :: ds =>
      if c = '-' then (parseDigits ds).map fun n => -(n : Int)
      else if c = '+' then (parseDigits ds).map fun n => (n : Int)
      else (parseDigits (c :: ds)).map fun n => (n : Int)
  signed.bind fun v => if InInt64 v then some v else none

/-- A JSON value stored into a field of type `int` or `int64`: `null` leaves the field as
it is, a number must be an integer literal of the range, anything else is an
`UnmarshalTypeError` (`none`). -/
def storeInt (cur : Int) (v : JSON) : Option Int :=
  match v with
  | .null => some cur
  | .number raw => ParseInt raw
  | _ => none

/-- A JSON value stored into a field of type `string`. -/
def storeString (cur : String) (v : JSON) : Option String :=
  match v with
  | .null => some cur
  | .string raw => some (String.mk (unquote raw))
  | _ => none

/-- A `time.Time`: an instant, counted from the zero time.  The program only copies it. -/
structure Time where
  seconds : Int
  nanoseconds : Nat
  deriving DecidableEq, Repr

/-- The zero value of `time.Time`. -/
def Time.zero : Time := { seconds := 0, nanoseconds := 0 }

/-- A JSON value stored into a field of type `time.Time` through `Time.UnmarshalJSON`:
`null` leaves the field as it is; of a string the text between the quotes is parsed by
`parseTime`, the RFC 3339 parser of the Go release in use, which is a parameter of the
model; anything else is an error. -/
def storeTime (parseTime : String → Option Time) (cur : Time) (v : JSON) : Option Time :=
  match v with
  | .null => some cur
  | .string raw => parseTime (String.mk raw)
  | _ => none

/-- The zero value of `KafkaWeight`. -/
def KafkaWeight.zero : KafkaWeight := { Scale := 0, Value := "" }

/-- One member of a JSON object stored into a `KafkaWeight`; a member that names no field
is skipped. -/
def KafkaWeight.storeMember (w : KafkaWeight) (m : List Char × JSON) : Option KafkaWeight :=
  if fieldMatches "scale" m.1 then (storeInt w.Scale m.2).map fun x => { w with Scale := x }
  else if fieldMatches "value" m.1 then
    (storeString w.Value m.2).map fun x => { w with Value := x }
  else some w

/-- A JSON value stored into a field of type `*KafkaWeight`: `null` sets nil; an object is
stored member by member into the struct pointed to, a new one if the pointer is nil. -/
def storeKafkaWeight (cur : Option KafkaWeight) (v : JSON) : Option (Option KafkaWeight) :=
  match v with
  | .null => some none
  | .object members =>
    (members.foldlM KafkaWeight.storeMember (cur.getD KafkaWeight.zero)).map some
  | _ => none

/-- The struct `Product`. -/
structure Product where
  Id : Int
  Name : String
  Weight : Option KafkaWeight
  WeightUomId : String
  UnitUomId : String
  Description : String
  CreatedAt : Time
  UpdatedAt : Time
  deriving DecidableEq, Repr

/-- The zero value of `Product`. -/
def Product.zero : Product :=
  { Id := 0, Name := "", Weight := none, WeightUomId := "", UnitUomId := "",
    Description := "", CreatedAt := Time.zero, UpdatedAt := Time.zero }

/-- One member of a JSON object stored into a `Product`. -/
def Product.storeMember (parseTime : String → Option Time) (p : Product)
    (m : List Char × JSON) : Option Product :=
  if fieldMatches "id" m.1 then (storeInt p.Id m.2).map fun x => { p with Id := x }
  else if fieldMatches "name" m.1 then
    (storeString p.Name m.2).map fun x => { p with Name := x }
  else if fieldMatches "weight" m.1 then
    (storeKafkaWeight p.Weight m.2).map fun x => { p with Weight := x }
  else if fieldMatches "weight_uom_id" m.1 then
    (storeString p.WeightUomId m.2).map fun x => { p with WeightUomId := x }
  else if fieldMatches "unit_uom_id" m.1 then
    (storeString p.UnitUomId m.2).map fun x => { p with UnitUomId := x }
  else if fieldMatches "description" m.1 then
    (storeString p.Description m.2).map fun x => { p with Description := x }
  else if fieldMatches "created_at" m.1 then
    (storeTime parseTime p.CreatedAt m.2).map fun x => { p with CreatedAt := x }
  else if fieldMatches "updated_at" m.1 then
    (storeTime parseTime p.UpdatedAt m.2).map fun x => { p with UpdatedAt := x }
  else some p

/-- A JSON value stored into a field of type `*Product`. -/
def storeProduct (parseTime : String → Option Time) (cur : Option Product) (v : JSON) :
    Option (Option Product) :=
  match v with
  | .null => some none
  | .object members =>
    (members.foldlM (Product.storeMember parseTime) (cur.getD Product.zero)).map some
  | _ => none

/-- The struct `KafkaMessage`. -/
structure KafkaMessage where
  Before : Option Product
  After : Option Product
  deriving DecidableEq, Repr

/-- One member of a JSON object stored into a `KafkaMessage`. -/
def KafkaMessage.storeMember (parseTime : String → Option Time) (k : KafkaMessage)
    (m : List Char × JSON) : Option KafkaMessage :=
  if fieldMatches "before" m.1 then
    (storeProduct parseTime k.Before m.2).map fun x => { k with Before := x }
  else if fieldMatches "after" m.1 then
    (storeProduct parseTime k.After m.2).map fun x => { k with After := x }
  else some k

/-- The struct `KafkaKey`. -/
structure KafkaKey where
  Id : Int
  deriving DecidableEq, Repr

/-- One member of a JSON object stored into a `KafkaKey`. -/
def KafkaKey.storeMember (k : KafkaKey) (m : List Char × JSON) : Option KafkaKey :=
  if fieldMatches "id" m.1 then (storeInt k.Id m.2).map fun x => { k with Id := x } else some k

/-- Model of `json.Unmarshal(data, &kafkaKey)` on `kafkaKey := KafkaKey{}` (lines 155-156):
`none` is a returned error.  A text that is not JSON is an error; the value `null` stores
nothing; an object is stored member by member; any other value is an error. -/
def UnmarshalKafkaKey (data : String) : Option KafkaKey :=
  match parseJSON data with
  | none => none
  | some .null => some { Id := 0 }
  | some (.object members) => members.foldlM KafkaKey.storeMember { Id := 0 }
  | some _ => none

/-- Model of `json.Unmarshal(data, &kafkaMsg)` on `kafkaMsg := KafkaMessage{}`
(lines 162-163). -/
def UnmarshalKafkaMessage (parseTime : String → Option Time) (data : String) :
    Option KafkaMessage :=
  match parseJSON data with
  | none => none
  | some .null => some { Before := none, After := none }
  | some (.object members) =>
    members.foldlM (KafkaMessage.storeMember parseTime) { Before := none, After := none }
  | some _ => none

/-! ## The document store -/

/-- The values the program writes into a document, as it hands them to the driver (the
encoding of a value in BSON is not modelled). -/
inductive BsonValue where
  | null
  | string (s : String)
  | decimal128 (d : Decimal128)
  | dateTime (t : Time)
  deriving DecidableEq, Repr

/-- A document without its `_id`: the value of each field it has. -/
abbrev Document := String → Option BsonValue

/-- The collection `product`: the document stored under each integer `_id`. -/
abbrev Collection := Int → Option Document

/-- What the calls to the outside return during one iteration: whether the call to the
store (`DeleteOne` or `UpdateOne`) returns an error, and whether `CommitMessage` does. -/
structure Env where
  storeError : Bool
  commitError : Bool
  deriving DecidableEq, Repr

/-- Model of `Collection.DeleteOne(ctx, bson.D{{"_id", id}})` (MongoDB Go driver): the
document with this `_id` is removed if there is one; no match is not an error.  A call that
returns an error (`none`) has changed nothing. -/
def DeleteOne (storeError : Bool) (products : Collection) (id : Int) : Option Collection :=
  if storeError then none
  else some fun k => if k = id then none else products k

/-- The operator `$set`: the listed fields get the listed values, other fields stay. -/
def applySet (doc : Document) (fields : List (String × BsonValue)) : Document :=
  fun name =>
    match fields.lookup name with
    | some v => some v
    | none => doc name

/-- Model of `Collection.UpdateOne(ctx, bson.D{{"_id", id}}, bson.D{{"$set", fields}}, opts)`
with `opts` carrying `SetUpsert(upsert)` (MongoDB Go driver): the document with this `_id`
gets the fields; if there is none and `upsert` is set, a document with this `_id` and the
fields is inserted.  A call that returns an error (`none`) has changed nothing. -/
def UpdateOne (storeError : Bool) (products : Collection) (id : Int)
    (fields : List (String × BsonValue)) (upsert : Bool) : Option Collection :=
  if storeError then none
  else
    match products id with
    | some doc => some fun k => if k = id then some (applySet doc fields) else products k
    | none =>
      if upsert then some fun k => if k = id then some (applySet (fun _ => none) fields) else products k
      else some products

/-- A `*primitive.Decimal128` as a value of a document: nil is written as null. -/
def decimalValue : Option Decimal128 → BsonValue
  | none => .null
  | some d => .decimal128 d

/-- The method `(*Root).DeleteProduct` (lines 109-117), on the state of `root.Products`. -/
def DeleteProduct (env : Env) (products : Collection) (productId : Int) :
    Except Panic Collection :=
  match DeleteOne env.storeError products productId with
  | none => .error Panic.deleteOne
  | some products1 => .ok products1

/-- The document under `$set` built by `SaveProduct` (lines 126-134), `weight` being the
result of `product.Weight.ToDecimal()`. -/
def Product.update (product : Product) (weight : Option Decimal128) :
    List (String × BsonValue) :=
  [("name", .string product.Name),
   ("weight", decimalValue weight),
   ("weight_uom_id", .string product.WeightUomId),
   ("unit_uom_id", .string product.UnitUomId),
   ("description", .string product.Description),
   ("created_at", .dateTime product.CreatedAt),
   ("updated_at", .dateTime product.UpdatedAt)]

/-- The method `(*Root).SaveProduct` (lines 119-141), on the state of `root.Products`. -/
def SaveProduct (env : Env) (products : Collection) (product : Product) :
    Except Panic Collection :=
  match KafkaWeight.ToDecimal product.Weight with
  | .error p => .error p
  | .ok weight =>
    match UpdateOne env.storeError products product.Id (product.update weight) true with
    | none => .error Panic.updateOne
    | some products1 => .ok products1

/-! ## The consume loop -/

/-- The field `TopicPartition` of a `kafka.Message`: the position of the message. -/
structure TopicPartition where
  Topic : String
  Partition : Int
  Offset : Int
  deriving DecidableEq, Repr

/-- A `kafka.Message`, as far as the program reads it. -/
structure Message where
  TopicPartition : TopicPartition
  Key : String
  Value : String
  deriving DecidableEq, Repr

/-- A call of `root.DeleteProduct(productId)` or of `root.SaveProduct(product)`. -/
inductive Call where
  | delete (productId : Int)
  | save (product : Product)
  deriving DecidableEq, Repr

/-- What the loop acts on: the collection, the positions committed so far, and a record
of the calls of `DeleteProduct` and `SaveProduct` made so far. -/
structure State where
  products : Collection
  committed : List TopicPartition
  calls : List Call

/-- Result of an iteration: the state it leaves, and the panic that ended the process, if
one did. -/
structure Outcome where
  state : State
  panic : Option Panic

/-- The operation a call stands for, run on the collection. -/
def Call.run (env : Env) (products : Collection) : Call → Except Panic Collection
  | .delete productId => DeleteProduct env products productId
  | .save product => SaveProduct env products product

/-- A call of `root.DeleteProduct` or `root.SaveProduct` inside the loop: it is recorded,
and it either returns, leaving the new collection, or panics. -/
def State.call (env : Env) (st : State) (call : Call) : Outcome :=
  match call.run env st.products with
  | .error p => { state := { st with calls := st.calls ++ [call] }, panic := some p }
  | .ok products1 =>
    { state := { st with products := products1, calls := st.calls ++ [call] }, panic := none }

/-- Lines 154-173 of `main`: the message is decoded and the delete or the upsert is
called. -/
def decodeAndApply (parseTime : String → Option Time) (env : Env) (st : State)
    (msg : Message) : Outcome :=
  if msg.Value.length = 0 then
    match UnmarshalKafkaKey msg.Key with
    | none => { state := st, panic := some Panic.unmarshalKey }
    | some kafkaKey => st.call env (.delete kafkaKey.Id)
  else
    match UnmarshalKafkaMessage parseTime msg.Value with
    | none => { state := st, panic := some Panic.unmarshalValue }
    | some kafkaMsg =>
      match kafkaMsg.After with
      | none =>
        match kafkaMsg.Before with
        | none => { state := st, panic := some Panic.nilDereference }
        | some before => st.call env (.delete before.Id)
      | some after => st.call env (.save after)

/-- One iteration of the loop of `main` (lines 146-179).  `read` is what
`Consumer.ReadMessage(-1)` returned, `none` for an error.  The line printed by
`fmt.Println` is not modelled. -/
def iteration (parseTime : String → Option Time) (env : Env) (st : State)
    (read : Option Message) : Outcome :=
  match read with
  | none => { state := st, panic := some Panic.readMessage }
  | some msg =>
    let applied := decodeAndApply parseTime env st msg
    match applied.panic with
    | some p => { state := applied.state, panic := some p }
    | none =>
      if env.commitError then { state := applied.state, panic := some Panic.commitMessage }
      else
        { state := { applied.state with
                     committed := applied.state.committed ++ [msg.TopicPartition] },
          panic := none }

/-! ## Notions the statements use -/

/-- Reading of the specification: the bytes as a big-endian two's-complement integer, which
is negative when the first byte has its high bit set. -/
def twosComplement (bytes : List Nat) : Int :=
  match bytes with
  | [] => 0
  | b0 :: _ =>
    if 128 ≤ b0 then (SetBytes bytes : Int) - 2 ^ (8 * bytes.length) else (SetBytes bytes : Int)

/-- A rational number a Decimal128 can hold: a coefficient of at most 34 decimal digits
times a power of ten whose exponent is in the range of the format. -/
def Representable (q : ℚ) : Prop :=
  ∃ c e : Int, c.natAbs ≤ maxS ∧ MinDecimal128Exp ≤ e ∧ e ≤ MaxDecimal128Exp ∧
    q = (c : ℚ) * (10 : ℚ) ^ e

/-- Every weight of the product has a scale of the range of `int`. -/
def Product.ScaleInRange (p : Product) : Prop := ∀ w, p.Weight = some w → InInt64 w.Scale

/-- The character of a decimal digit. -/
def digitChar (d : Nat) : Char := Char.ofNat (48 + d)

/-- The decimal numeral of an integer: a minus sign if it is negative, then the digits of
its absolute value without leading zeros. -/
def decimalNumeral (n : Int) : List Char :=
  let digits := if n = 0 then ['0'] else (Nat.digits 10 n.natAbs).reverse.map digitChar
  if n < 0 then '-' :: digits else digits

/-- The text of the key `{"id": n}`. -/
def idKey (n : Int) : String :=
  String.mk (['\x7b', '"', 'i', 'd', '"', ':', ' '] ++ decimalNumeral n ++ ['\x7d'])

/-! ## Sample data

Concrete messages and states on which the statements are evaluated. -/

/-- A time parser that accepts no text; the sample messages carry no time. -/
def noTimes : String → Option Time := fun _ => none

/-- An iteration in which no call to the outside returns an error. -/
def noErrors : Env := { storeError := false, commitError := false }

/-- An iteration in which `CommitMessage` returns an error. -/
def commitFails : Env := { storeError := false, commitError := true }

/-- The position of the sample messages. -/
def position : TopicPartition :=
  { Topic := "DBTestServer.public.product", Partition := 0, Offset := 42 }

/-- The state of a fresh start on an empty collection. -/
def emptyState : State := { products := fun _ => none, committed := [], calls := [] }

/-- A state whose collection holds one document, under `_id` 0. -/
def stateWithZero : State :=
  { products := fun k => if k = 0 then some fun _ => none else none,
    committed := [], calls := [] }

/-- The product 5, "Widget", of weight 500 x 10^(-2): the bytes 0x01 0xF4 in base64. -/
def widget : Product :=
  { Product.zero with Id := 5, Name := "Widget", Weight := some { Scale := 2, Value := "AfQ=" } }

/-- The collection that holds `widget` and nothing else. -/
def widgetStored : Collection :=
  fun k => if k = 5 then
      some (applySet (fun _ => none)
        (widget.update (some { h := 3475653012423180288, l := 500 })))
    else none

/-- A tombstone: empty value, key `{"id": 7}`. -/
def tombstoneSeven : Message :=
  { TopicPartition := position, Key := "\x7b\"id\": 7\x7d", Value := "" }

/-- A tombstone whose key `{}` has no id. -/
def tombstoneNoId : Message :=
  { TopicPartition := position, Key := "\x7b\x7d", Value := "" }

/-- A tombstone whose key `{"id": "7"}` has an id of the wrong JSON type. -/
def tombstoneBadId : Message :=
  { TopicPartition := position, Key := "\x7b\"id\": \"7\"\x7d", Value := "" }

/-- A tombstone whose key `{"id": 9223372036854775808}` has an id above the range of
`int64`. -/
def tombstoneHuge : Message :=
  { TopicPartition := position, Key := "\x7b\"id\": 9223372036854775808\x7d", Value := "" }

/-- The value `{"before": {"id": 3}, "after": null}`. -/
def deleteThree : Message :=
  { TopicPartition := position, Key := "",
    Value := "\x7b\"before\": \x7b\"id\": 3\x7d, \"after\": null\x7d" }

/-- The value `{"before":{},"after":null}`, whose before image has no id. -/
def deleteNoId : Message :=
  { TopicPartition := position, Key := "",
    Value := "\x7b\"before\":\x7b\x7d,\"after\":null\x7d" }

/-- The value `{"before": null, "after": null}`, with a key that has an id. -/
def noImages : Message :=
  { TopicPartition := position, Key := "\x7b\"id\": 3\x7d",
    Value := "\x7b\"before\": null, \"after\": null\x7d" }

/-- The value `{"before": null, "after": {"id": 5, "name": "Widget", "weight": {"scale": 2,
"value": "AfQ="}}}`. -/
def upsertWidget : Message :=
  { TopicPartition := position, Key := "",
    Value := "\x7b\"before\": null, \"after\": \x7b\"id\": 5, \"name\": \"Widget\", \"weight\": \x7b\"scale\": 2, \"value\": \"AfQ=\"\x7d\x7d\x7d" }

/-- The product 5 of weight 1 x 10^(-7000): the byte 0x01 in base64, scale 7000. -/
def tinyProduct : Product :=
  { Product.zero with Id := 5, Weight := some { Scale := 7000, Value := "AQ==" } }

/-- The value `{"after": {"id": 5, "weight": {"scale": 7000, "value": "AQ=="}}}`. -/
def upsertTiny : Message :=
  { TopicPartition := position, Key := "",
    Value := "\x7b\"after\": \x7b\"id\": 5, \"weight\": \x7b\"scale\": 7000, \"value\": \"AQ==\"\x7d\x7d\x7d" }

/-- The product 5 whose weight has the value `!`, which is not base64. -/
def badProduct : Product :=
  { Product.zero with Id := 5, Weight := some { Scale := 2, Value := "!" } }

/-- The value `{"after": {"id": 5, "weight": {"scale": 2, "value": "!"}}}`. -/
def upsertBadBase64 : Message :=
  { TopicPartition := position, Key := "",
    Value := "\x7b\"after\": \x7b\"id\": 5, \"weight\": \x7b\"scale\": 2, \"value\": \"!\"\x7d\x7d\x7d" }

/-! ## Theorems -/

/-! ### Decimal128: the three loops of `ParseDecimal128FromBigInt` -/

/-- A value of the range is not changed by the wrap-around. -/
theorem wrapInt64_of_inRange (x : Int) (h : InInt64 x) : wrapInt64 x = x := by
  unfold wrapInt64; unfold InInt64 at h; omega

/-- The first loop does nothing to a coefficient of at most 34 digits. -/
theorem normalizeLoop_of_le (bi exp : Int) (h : bi.natAbs ≤ maxS) :
    normalizeLoop bi exp = some (bi, exp) := by
  rw [normalizeLoop]; simp [Nat.not_lt.mpr h]

/-- The second loop does nothing to an exponent that is not below the least one. -/
theorem subnormalLoop_of_ge (bi exp : Int) (h : MinDecimal128Exp ≤ exp) :
    subnormalLoop bi exp = some (bi, exp) := by
  rw [subnormalLoop]; simp [Int.not_lt.mpr h]

/-- The third loop does nothing to an exponent that is not above the largest one. -/
theorem clampLoop_of_le (bi exp : Int) (h : exp ≤ MaxDecimal128Exp) :
    clampLoop bi exp = some (bi, exp) := by
  rw [clampLoop]; simp [Int.not_lt.mpr h]

/-- A number whose remainder by ten is zero is ten times its quotient. -/
theorem eq_ten_mul_tdiv (bi : Int) (h : bi.tmod 10 = 0) : bi = bi.tdiv 10 * 10 := by
  have := Int.tmod_add_tdiv bi 10
  omega

/-- A result of the first loop, started at an exponent that cannot wrap: the coefficient was
divided exactly by a power of ten, the exponent raised by as much. -/
theorem normalizeLoop_spec (bi exp b e : Int) (hr : InInt64 exp) (hm : exp ≤ MaxDecimal128Exp)
    (h : normalizeLoop bi exp = some (b, e)) :
    b.natAbs ≤ maxS ∧ ∃ k : ℕ, bi = b * 10 ^ k ∧ e = exp + k ∧ e ≤ MaxDecimal128Exp := by
  induction bi, exp using normalizeLoop.induct with
  | case1 bi exp hgt hmod =>
    rw [normalizeLoop] at h; simp [hgt, hmod] at h
  | case2 bi exp hgt hmod exp1 hexp =>
    rw [normalizeLoop] at h; simp [hgt, hmod] at h
    simp only [exp1] at hexp
    omega
  | case3 bi exp hgt hmod exp1 hexp ih =>
    rw [normalizeLoop] at h
    have hmod0 : bi.tmod 10 = 0 := by simpa using hmod
    have hw : wrapInt64 (exp + 1) = exp + 1 := by
      apply wrapInt64_of_inRange
      unfold InInt64 at *; unfold MaxDecimal128Exp at hm; omega
    simp only [exp1, hw] at hexp ih
    simp [hgt, hmod0, hw] at h
    have hle : exp + 1 ≤ MaxDecimal128Exp := h.1
    have hr1 : InInt64 (exp + 1) := by
      unfold InInt64 at *; unfold MaxDecimal128Exp at hm; omega
    have h2 : normalizeLoop (bi.tdiv 10) (exp + 1) = some (b, e) := h.2
    obtain ⟨hb, k, hk, he, hem⟩ := ih hr1 hle h2
    refine ⟨hb, k + 1, ?_, ?_, hem⟩
    · have := eq_ten_mul_tdiv bi hmod0
      rw [this, hk]; ring
    · rw [he]; push_cast; ring
  | case4 bi exp hle =>
    rw [normalizeLoop] at h; simp [hle] at h
    obtain ⟨rfl, rfl⟩ := h
    exact ⟨by omega, 0, by simp, by simp, hm⟩


/-- A result of the second loop, started below the least exponent: the exponent is the least
one, the coefficient was divided exactly by the power of ten in between. -/
theorem subnormalLoop_spec (bi exp b e : Int) (hlt : exp < MinDecimal128Exp)
    (h : subnormalLoop bi exp = some (b, e)) :
    e = MinDecimal128Exp ∧ bi = b * 10 ^ (MinDecimal128Exp - exp).toNat := by
  induction bi, exp using subnormalLoop.induct with
  | case1 bi exp hlt1 hmod =>
    rw [subnormalLoop] at h; simp [hlt1, hmod] at h
  | case2 bi exp hlt1 hmod ih =>
    rw [subnormalLoop] at h
    have hmod0 : bi.tmod 10 = 0 := by simpa using hmod
    simp [hlt1, hmod0] at h
    by_cases hc : exp + 1 < MinDecimal128Exp
    · obtain ⟨he, hb⟩ := ih hc h
      refine ⟨he, ?_⟩
      have hten := eq_ten_mul_tdiv bi hmod0
      have hn : (MinDecimal128Exp - exp).toNat = (MinDecimal128Exp - (exp + 1)).toNat + 1 := by
        omega
      rw [hn, hten, hb]; ring
    · rw [subnormalLoop_of_ge _ _ (by omega)] at h
      simp at h
      obtain ⟨rfl, rfl⟩ := h
      have hn : (MinDecimal128Exp - exp).toNat = 1 := by omega
      have hten := eq_ten_mul_tdiv bi hmod0
      refine ⟨by omega, ?_⟩
      rw [hn]; simpa using hten
  | case3 bi exp hge => exact absurd hlt hge

/-- A result of the third loop, started above the largest exponent: the exponent is the
largest one, the coefficient was multiplied by the power of ten in between and still has at
most 34 digits. -/
theorem clampLoop_spec (bi exp b e : Int) (hgt : MaxDecimal128Exp < exp)
    (h : clampLoop bi exp = some (b, e)) :
    e = MaxDecimal128Exp ∧ b = bi * 10 ^ (exp - MaxDecimal128Exp).toNat ∧ b.natAbs ≤ maxS := by
  induction bi, exp using clampLoop.induct with
  | case1 bi exp hgt1 hbig =>
    rw [clampLoop] at h; simp [hgt1, hbig] at h
  | case2 bi exp hgt1 hbig ih =>
    rw [clampLoop] at h
    simp [hgt1, hbig] at h
    by_cases hc : MaxDecimal128Exp < exp - 1
    · obtain ⟨he, hb, hs⟩ := ih hc h
      refine ⟨he, ?_, hs⟩
      have hn : (exp - MaxDecimal128Exp).toNat = (exp - 1 - MaxDecimal128Exp).toNat + 1 := by
        omega
      rw [hn, hb]; ring
    · rw [clampLoop_of_le _ _ (by omega)] at h
      simp at h
      obtain ⟨rfl, rfl⟩ := h
      have hn : (exp - MaxDecimal128Exp).toNat = 1 := by omega
      refine ⟨by omega, ?_, by omega⟩
      rw [hn]; simp
  | case3 bi exp hle => exact absurd hgt hle

/-! ### Decimal128: packing and reading back -/

/-- The high word of a packed Decimal128, in arithmetic: sign bit, biased exponent, high
bits of the coefficient. -/
theorem packDecimal128_h (b e : Int) (hb : b.natAbs ≤ maxS) (h1 : MinDecimal128Exp ≤ e)
    (h2 : e ≤ MaxDecimal128Exp) :
    (packDecimal128 b e).h =
      (if b < 0 then 2 ^ 63 else 0) + (e - MinDecimal128Exp).toNat * 2 ^ 49 + b.natAbs / 2 ^ 64 := by
  unfold MinDecimal128Exp MaxDecimal128Exp maxS at *
  have ht : ((e - -6176) % 2 ^ 64).toNat = (e - -6176).toNat := by omega
  have htb : (e - -6176).toNat < 12288 := by omega
  have hn : b.natAbs / 2 ^ 64 < 2 ^ 49 := by omega
  simp only [packDecimal128, MinDecimal128Exp, ht]
  rw [Nat.and_pow_two_sub_one_eq_mod, Nat.shiftLeft_eq, Nat.shiftLeft_eq]
  have e1 : (e - -6176).toNat % 2 ^ 14 = (e - -6176).toNat := by omega
  have e2 : (e - -6176).toNat * 2 ^ 49 % 2 ^ 64 = (e - -6176).toNat * 2 ^ 49 := by omega
  have e3 : b.natAbs / 2 ^ 64 % 2 ^ 64 = b.natAbs / 2 ^ 64 := by omega
  rw [e1, e2, e3]
  have hor : b.natAbs / 2 ^ 64 ||| (e - -6176).toNat * 2 ^ 49
      = (e - -6176).toNat * 2 ^ 49 + b.natAbs / 2 ^ 64 := by
    rw [Nat.lor_comm, Nat.mul_comm, ← Nat.mul_add_lt_is_or hn]
  rw [hor]
  split
  · have hlt : (e - -6176).toNat * 2 ^ 49 + b.natAbs / 2 ^ 64 < 2 ^ 63 := by omega
    rw [Nat.lor_comm, Nat.mul_comm 1, ← Nat.mul_add_lt_is_or hlt]
    omega
  · omega

/-- Reading back a packed Decimal128 gives the coefficient and the exponent packed. -/
theorem BigInt_packDecimal128 (b e : Int) (hb : b.natAbs ≤ maxS) (h1 : MinDecimal128Exp ≤ e)
    (h2 : e ≤ MaxDecimal128Exp) : (packDecimal128 b e).BigInt = some (b, e) := by
  have hh := packDecimal128_h b e hb h1 h2
  have hl : (packDecimal128 b e).l = b.natAbs % 2 ^ 64 := rfl
  unfold MinDecimal128Exp MaxDecimal128Exp maxS at *
  have htb : (e - -6176).toNat < 12288 := by omega
  have hn : b.natAbs / 2 ^ 64 < 2 ^ 49 := by omega
  have h3 : (3 : ℕ) = 2 ^ 2 - 1 := rfl
  simp only [Decimal128.BigInt, hl, MinDecimal128Exp, Nat.and_one_is_mod, h3,
    Nat.and_pow_two_sub_one_eq_mod, Nat.shiftRight_eq_div_pow]
  generalize (packDecimal128 b e).h = H at *
  by_cases hneg : b < 0
  · simp only [hneg, if_true] at hh
    have c1 : H / 2 ^ 58 % 2 ^ 5 ≠ 0x1F := by omega
    have c2 : H / 2 ^ 58 % 2 ^ 5 ≠ 0x1E := by omega
    have c3 : ¬ (H / 2 ^ 61 % 2 ^ 2 = 2 ^ 2 - 1) := by omega
    have c4 : ¬ (H / 2 ^ 63 % 2 = 0) := by omega
    simp only [c1, c2, c3, c4, if_false]
    have c5 : H / 2 ^ 49 % 2 ^ 14 = (e - -6176).toNat := by omega
    have c6 : H % 2 ^ 49 * 2 ^ 64 + b.natAbs % 2 ^ 64 = b.natAbs := by omega
    rw [c5, c6]
    simp only [Option.some.injEq, Prod.mk.injEq]
    constructor <;> omega
  · simp only [hneg, if_false] at hh
    have c1 : H / 2 ^ 58 % 2 ^ 5 ≠ 0x1F := by omega
    have c2 : H / 2 ^ 58 % 2 ^ 5 ≠ 0x1E := by omega
    have c3 : ¬ (H / 2 ^ 61 % 2 ^ 2 = 2 ^ 2 - 1) := by omega
    have c4 : (H / 2 ^ 63 % 2 = 0) := by omega
    simp only [c1, c2, c3, c4, if_false, if_true]
    have c5 : H / 2 ^ 49 % 2 ^ 14 = (e - -6176).toNat := by omega
    have c6 : H % 2 ^ 49 * 2 ^ 64 + b.natAbs % 2 ^ 64 = b.natAbs := by omega
    rw [c5, c6]
    simp only [Option.some.injEq, Prod.mk.injEq]
    constructor <;> omega

/-! ### Decimal128: a result denotes the value asked for -/

/-- A power of ten moved from the coefficient into the exponent. -/
theorem ten_zpow_shift (x : ℚ) (j : ℕ) (e : Int) :
    x * (10 : ℚ) ^ j * (10 : ℚ) ^ e = x * (10 : ℚ) ^ (e + j) := by
  rw [zpow_add₀ (by norm_num : (10 : ℚ) ≠ 0), zpow_natCast]; ring

/-- A multiple by a power of ten is at least as large in absolute value. -/
theorem natAbs_le_of_eq_mul_pow (b1 b2 : Int) (j : ℕ) (h : b1 = b2 * 10 ^ j) :
    b2.natAbs ≤ b1.natAbs := by
  rw [h, Int.natAbs_mul, Int.natAbs_pow]
  exact Nat.le_mul_of_pos_right _ (Nat.pow_pos (by decide))

/-- The second and third loop keep the value and bring the exponent into the range. -/
theorem tailLoops_sound (b1 e1 b2 e2 b3 e3 : Int) (hb1 : b1.natAbs ≤ maxS)
    (h2 : subnormalLoop b1 e1 = some (b2, e2)) (h3 : clampLoop b2 e2 = some (b3, e3)) :
    b3.natAbs ≤ maxS ∧ MinDecimal128Exp ≤ e3 ∧ e3 ≤ MaxDecimal128Exp ∧
      (b3 : ℚ) * (10 : ℚ) ^ e3 = (b1 : ℚ) * (10 : ℚ) ^ e1 := by
  by_cases hlo : e1 < MinDecimal128Exp
  · obtain ⟨he2, hb⟩ := subnormalLoop_spec b1 e1 b2 e2 hlo h2
    have hle : e2 ≤ MaxDecimal128Exp := by rw [he2]; decide
    rw [clampLoop_of_le _ _ hle] at h3
    simp only [Option.some.injEq, Prod.mk.injEq] at h3
    obtain ⟨rfl, rfl⟩ := h3
    refine ⟨le_trans (natAbs_le_of_eq_mul_pow _ _ _ hb) hb1, by rw [he2], hle, ?_⟩
    have hq : (b1 : ℚ) = (b2 : ℚ) * (10 : ℚ) ^ (MinDecimal128Exp - e1).toNat := by
      exact_mod_cast congrArg (fun z : Int => (z : ℚ)) hb
    rw [hq, ten_zpow_shift]
    congr 1
    rw [he2, Int.toNat_of_nonneg (by omega)]; ring_nf
  · have hge : MinDecimal128Exp ≤ e1 := by omega
    rw [subnormalLoop_of_ge _ _ hge] at h2
    simp only [Option.some.injEq, Prod.mk.injEq] at h2
    obtain ⟨rfl, rfl⟩ := h2
    by_cases hhi : MaxDecimal128Exp < e1
    · obtain ⟨he3, hb, hs⟩ := clampLoop_spec b1 e1 b3 e3 hhi h3
      refine ⟨hs, by rw [he3]; decide, by rw [he3], ?_⟩
      have hq : (b3 : ℚ) = (b1 : ℚ) * (10 : ℚ) ^ (e1 - MaxDecimal128Exp).toNat := by
        exact_mod_cast congrArg (fun z : Int => (z : ℚ)) hb
      rw [hq, ten_zpow_shift]
      congr 1
      rw [he3, Int.toNat_of_nonneg (by omega)]; ring_nf
    · have hle : e1 ≤ MaxDecimal128Exp := by omega
      rw [clampLoop_of_le _ _ hle] at h3
      simp only [Option.some.injEq, Prod.mk.injEq] at h3
      obtain ⟨rfl, rfl⟩ := h3
      exact ⟨hb1, hge, hle, rfl⟩

/-- The first loop fails on a large coefficient whose exponent is already above the
largest one, unless the increment of the exponent wraps around. -/
theorem normalizeLoop_none_of_gt (bi exp : Int) (hr : InInt64 exp)
    (hbig : maxS < bi.natAbs) (hgt : MaxDecimal128Exp < exp) (hne : exp ≠ 2 ^ 63 - 1) :
    normalizeLoop bi exp = none := by
  rw [normalizeLoop]
  have hw : wrapInt64 (exp + 1) = exp + 1 := by
    apply wrapInt64_of_inRange
    unfold InInt64 at *; omega
  simp only [hbig, if_true, hw]
  split
  · rfl
  · have : MaxDecimal128Exp < exp + 1 := by omega
    simp [this]

/-- A result of `ParseDecimal128FromBigInt` whose computation does not wrap the exponent
denotes the value asked for. -/
theorem ParseDecimal128FromBigInt_sound (bi exp : Int) (d : Decimal128) (hr : InInt64 exp)
    (hnw : bi.natAbs ≤ maxS ∨ exp ≠ 2 ^ 63 - 1)
    (h : ParseDecimal128FromBigInt bi exp = some d) :
    ∃ b e : Int, d = packDecimal128 b e ∧ b.natAbs ≤ maxS ∧ MinDecimal128Exp ≤ e ∧
      e ≤ MaxDecimal128Exp ∧ (b : ℚ) * (10 : ℚ) ^ e = (bi : ℚ) * (10 : ℚ) ^ exp := by
  unfold ParseDecimal128FromBigInt at h
  cases h1 : normalizeLoop bi exp with
  | none => simp [h1] at h
  | some r1 =>
    obtain ⟨b1, e1⟩ := r1
    simp only [h1] at h
    cases h2 : subnormalLoop b1 e1 with
    | none => simp [h2] at h
    | some r2 =>
      obtain ⟨b2, e2⟩ := r2
      simp only [h2] at h
      cases h3 : clampLoop b2 e2 with
      | none => simp [h3] at h
      | some r3 =>
        obtain ⟨b3, e3⟩ := r3
        simp only [h3, Option.some.injEq] at h
        have key : b1.natAbs ≤ maxS ∧ (b1 : ℚ) * (10 : ℚ) ^ e1 = (bi : ℚ) * (10 : ℚ) ^ exp := by
          by_cases hsmall : bi.natAbs ≤ maxS
          · rw [normalizeLoop_of_le _ _ hsmall] at h1
            simp only [Option.some.injEq, Prod.mk.injEq] at h1
            obtain ⟨rfl, rfl⟩ := h1
            exact ⟨hsmall, rfl⟩
          · have hbig : maxS < bi.natAbs := by omega
            have hne : exp ≠ 2 ^ 63 - 1 := by
              rcases hnw with h' | h'
              · exact absurd h' hsmall
              · exact h'
            by_cases hgt : MaxDecimal128Exp < exp
            · rw [normalizeLoop_none_of_gt _ _ hr hbig hgt hne] at h1
              exact absurd h1 (by simp)
            · obtain ⟨hb, k, hk, he, _⟩ :=
                normalizeLoop_spec bi exp b1 e1 hr (by omega) h1
              refine ⟨hb, ?_⟩
              have hq : (bi : ℚ) = (b1 : ℚ) * (10 : ℚ) ^ k := by
                exact_mod_cast congrArg (fun z : Int => (z : ℚ)) hk
              rw [hq, ten_zpow_shift, he]
        obtain ⟨hb3, hmin, hmax, hval⟩ := tailLoops_sound b1 e1 b2 e2 b3 e3 key.1 h2 h3
        exact ⟨b3, e3, h.symm, hb3, hmin, hmax, hval.trans key.2⟩

/-! ### Base64 and the size of the decoded integer -/

/-- The bytes of a quantum are bytes. -/
theorem quantumBytes_lt (x y z w : Nat) :
    (quantumBytes x y z w).1 < 256 ∧ (quantumBytes x y z w).2.1 < 256 ∧
      (quantumBytes x y z w).2.2 < 256 := by
  simp only [quantumBytes]
  refine ⟨Nat.mod_lt _ (by decide), Nat.mod_lt _ (by decide), Nat.mod_lt _ (by decide)⟩

/-- Decoded base64 is no longer than its text and consists of bytes. -/
theorem decodeQuanta_bytes : ∀ (s : List Char) (bytes : List Nat),
    decodeQuanta s = some bytes → bytes.length ≤ s.length ∧ ∀ b ∈ bytes, b < 256
  | [], bytes, h => by
    simp only [decodeQuanta, Option.some.injEq] at h
    subst h; simp
  | [_], _, h => by simp [decodeQuanta] at h
  | [_, _], _, h => by simp [decodeQuanta] at h
  | [_, _, _], _, h => by simp [decodeQuanta] at h
  | a :: b :: c :: d :: rest, bytes, h => by
    have ih := decodeQuanta_bytes rest
    simp only [decodeQuanta] at h
    split at h
    · rename_i x y _ _
      have hq := quantumBytes_lt x y
      split at h
      · split at h
        · simp only [Option.some.injEq] at h
          subst h
          have := hq 0 0
          simp; omega
        · simp at h
      · split at h
        · simp at h
        · rename_i z _
          split at h
          · split at h
            · simp only [Option.some.injEq] at h
              subst h
              have := hq z 0
              simp; omega
            · simp at h
          · split at h
            · simp at h
            · rename_i w _
              cases hrest : decodeQuanta rest with
              | none => simp [hrest] at h
              | some t =>
                simp only [hrest, Option.map_some', Option.some.injEq] at h
                subst h
                obtain ⟨hl, hb⟩ := ih t hrest
                have := hq z w
                refine ⟨by simp; omega, ?_⟩
                intro b' hb'
                simp only [List.mem_cons] at hb'
                rcases hb' with h' | h' | h' | h'
                · omega
                · omega
                · omega
                · exact hb b' h'
    · simp at h

/-- The result of `DecodeString` is no longer than the text and consists of bytes. -/
theorem DecodeString_bytes (s : String) (bytes : List Nat) (h : DecodeString s = some bytes) :
    bytes.length ≤ s.length ∧ ∀ b ∈ bytes, b < 256 := by
  unfold DecodeString at h
  obtain ⟨hl, hb⟩ := decodeQuanta_bytes _ _ h
  refine ⟨le_trans hl ?_, hb⟩
  exact List.length_filter_le _ _

/-- Bound on the big-endian reading of bytes, from any start. -/
theorem foldl_bytes_lt (bytes : List Nat) (hb : ∀ b ∈ bytes, b < 256) (acc : Nat) :
    bytes.foldl (fun acc b => acc * 256 + b) acc < (acc + 1) * 256 ^ bytes.length := by
  induction bytes generalizing acc with
  | nil => simp
  | cons b rest ih =>
    have hb0 : b < 256 := hb b (List.mem_cons_self _ _)
    have ih1 := ih (fun x hx => hb x (List.mem_cons_of_mem _ hx)) (acc * 256 + b)
    simp only [List.foldl_cons, List.length_cons]
    calc List.foldl (fun acc b => acc * 256 + b) (acc * 256 + b) rest
        < (acc * 256 + b + 1) * 256 ^ rest.length := ih1
      _ ≤ ((acc + 1) * 256) * 256 ^ rest.length := Nat.mul_le_mul_right _ (by omega)
      _ = (acc + 1) * 256 ^ (rest.length + 1) := by ring

/-- The integer of `k` bytes is below `256 ^ k`. -/
theorem SetBytes_lt (bytes : List Nat) (hb : ∀ b ∈ bytes, b < 256) :
    SetBytes bytes < 256 ^ bytes.length := by
  have := foldl_bytes_lt bytes hb 0
  simpa [SetBytes] using this

/-- A nonzero integer below `256 ^ len` is not a multiple of a power of ten whose exponent is
at least `8 * len`. -/
theorem eq_zero_of_eq_mul_pow (n : Int) (c : Int) (K len : ℕ) (hn : n.natAbs < 256 ^ len)
    (hK : 8 * len ≤ K) (h : n = c * 10 ^ K) : n = 0 := by
  by_contra hne
  have hc : c ≠ 0 := by
    rintro rfl
    simp at h; exact hne h
  have h1 : 1 ≤ c.natAbs := Int.natAbs_pos.mpr hc
  have h2 : n.natAbs = c.natAbs * 10 ^ K := by
    rw [h, Int.natAbs_mul, Int.natAbs_pow]; rfl
  have h3 : (256 : ℕ) ^ len = 2 ^ (8 * len) := by
    rw [pow_mul]; norm_num
  have h4 : (2 : ℕ) ^ (8 * len) ≤ 2 ^ K := Nat.pow_le_pow_right (by decide) hK
  have h5 : (2 : ℕ) ^ K ≤ 10 ^ K := Nat.pow_le_pow_left (by decide) K
  have h6 : (10 : ℕ) ^ K ≤ c.natAbs * 10 ^ K := Nat.le_mul_of_pos_left _ h1
  omega

/-- From an equation between decimal values to one between integers. -/
theorem int_eq_of_decimal_eq (b n e exp : Int) (hle : exp ≤ e)
    (h : (b : ℚ) * (10 : ℚ) ^ e = (n : ℚ) * (10 : ℚ) ^ exp) :
    n = b * 10 ^ (e - exp).toNat := by
  have h10 : (10 : ℚ) ≠ 0 := by norm_num
  have hq : (n : ℚ) = (b : ℚ) * (10 : ℚ) ^ (e - exp).toNat := by
    have he : (10 : ℚ) ^ e = (10 : ℚ) ^ (((e - exp).toNat : Int)) * (10 : ℚ) ^ exp := by
      rw [← zpow_add₀ h10, Int.toNat_of_nonneg (by omega)]; congr 1; ring
    rw [he, zpow_natCast, ← mul_assoc] at h
    exact (mul_right_cancel₀ (zpow_ne_zero exp h10) h).symm
  exact_mod_cast hq

/-! ### `ToDecimal` -/

/-- When the exponent is the largest `int` and the coefficient is large, the first
iteration wraps the exponent around. -/
theorem ParseDecimal128FromBigInt_wrap (bi : Int) (hbig : maxS < bi.natAbs)
    (d : Decimal128) (h : ParseDecimal128FromBigInt bi (2 ^ 63 - 1) = some d) :
    bi.tmod 10 = 0 ∧ ParseDecimal128FromBigInt (bi.tdiv 10) (-2 ^ 63) = some d := by
  have hw : wrapInt64 (2 ^ 63 - 1 + 1) = -2 ^ 63 := by decide
  have hm : ¬ (MaxDecimal128Exp < -2 ^ 63) := by decide
  unfold ParseDecimal128FromBigInt at h
  rw [normalizeLoop] at h
  simp only [hbig, if_true, hw] at h
  by_cases hmod : bi.tmod 10 = 0
  · refine ⟨hmod, ?_⟩
    simp only [hmod, ne_eq, not_true_eq_false, if_false, gt_iff_lt, hm] at h
    unfold ParseDecimal128FromBigInt
    exact h
  · simp [hmod] at h

/-- What `ToDecimal` returns for a weight that is present: a panic if the value is not
base64, else the result of `ParseDecimal128FromBigInt`. -/
theorem ToDecimal_some (w : KafkaWeight) (bytes : List Nat)
    (hb : DecodeString w.Value = some bytes) :
    KafkaWeight.ToDecimal (some w) =
      .ok (ParseDecimal128FromBigInt (SetBytes bytes) (wrapInt64 (-w.Scale))) := by
  simp only [KafkaWeight.ToDecimal, hb]
  cases ParseDecimal128FromBigInt (SetBytes bytes) (wrapInt64 (-w.Scale)) <;> rfl

/-- The Decimal128 computed for a decoded weight denotes the unsigned big-endian integer
of the bytes, scaled. -/
theorem parse_weight_sound (scale : Int) (bytes : List Nat) (d : Decimal128)
    (hs : InInt64 scale) (hlen : bytes.length < 2 ^ 31) (hbytes : ∀ b ∈ bytes, b < 256)
    (h : ParseDecimal128FromBigInt (SetBytes bytes) (wrapInt64 (-scale)) = some d) :
    ∃ b e : Int, d = packDecimal128 b e ∧ b.natAbs ≤ maxS ∧ MinDecimal128Exp ≤ e ∧
      e ≤ MaxDecimal128Exp ∧
      (b : ℚ) * (10 : ℚ) ^ e = ((SetBytes bytes : Int) : ℚ) * (10 : ℚ) ^ (-scale) := by
  have hN : ((SetBytes bytes : Int)).natAbs < 256 ^ bytes.length := by
    simpa using SetBytes_lt bytes hbytes
  generalize (SetBytes bytes : Int) = n at *
  by_cases hmin : scale = -2 ^ 63
  · -- the negation wraps: the exponent used is `-2^63`
    have hw : wrapInt64 (-scale) = -2 ^ 63 := by rw [hmin]; decide
    rw [hw] at h
    obtain ⟨b, e, hd, hb, he1, he2, hv⟩ :=
      ParseDecimal128FromBigInt_sound n (-2 ^ 63) d (by decide) (Or.inr (by decide)) h
    have hz : n = 0 := by
      have hint := int_eq_of_decimal_eq b n e (-2 ^ 63) (by unfold MinDecimal128Exp at he1; omega) hv
      refine eq_zero_of_eq_mul_pow n b _ bytes.length hN ?_ hint
      unfold MinDecimal128Exp at he1; omega
    refine ⟨b, e, hd, hb, he1, he2, ?_⟩
    rw [hv, hz]; simp
  · have hr : InInt64 (-scale) := by unfold InInt64 at *; omega
    rw [wrapInt64_of_inRange _ hr] at h
    by_cases hnw : n.natAbs ≤ maxS ∨ -scale ≠ 2 ^ 63 - 1
    · exact ParseDecimal128FromBigInt_sound n (-scale) d hr hnw h
    · -- the increment of the exponent wraps in the first loop
      exfalso
      have hbig : maxS < n.natAbs := by
        by_contra hc; exact hnw (Or.inl (by omega))
      have hexp : -scale = 2 ^ 63 - 1 := by
        by_contra hc; exact hnw (Or.inr hc)
      rw [hexp] at h
      obtain ⟨hmod, h'⟩ := ParseDecimal128FromBigInt_wrap n hbig d h
      obtain ⟨b, e, _, _, he1, _, hv⟩ :=
        ParseDecimal128FromBigInt_sound (n.tdiv 10) (-2 ^ 63) d (by decide)
          (Or.inr (by decide)) h'
      have hdiv : (n.tdiv 10).natAbs = n.natAbs / 10 := Int.natAbs_tdiv n 10
      have hz : n.tdiv 10 = 0 := by
        have hint := int_eq_of_decimal_eq b (n.tdiv 10) e (-2 ^ 63)
          (by unfold MinDecimal128Exp at he1; omega) hv
        refine eq_zero_of_eq_mul_pow (n.tdiv 10) b _ bytes.length ?_ ?_ hint
        · rw [hdiv]; exact lt_of_le_of_lt (Nat.div_le_self _ _) hN
        · unfold MinDecimal128Exp at he1; omega
      rw [hz] at hdiv
      unfold maxS at hbig
      simp at hdiv
      omega

/-- A coefficient and an exponent inside the range of the format are stored as they are. -/
theorem ParseDecimal128FromBigInt_of_inRange (bi exp : Int) (hb : bi.natAbs ≤ maxS)
    (h1 : MinDecimal128Exp ≤ exp) (h2 : exp ≤ MaxDecimal128Exp) :
    ParseDecimal128FromBigInt bi exp = some (packDecimal128 bi exp) := by
  unfold ParseDecimal128FromBigInt
  rw [normalizeLoop_of_le _ _ hb]
  simp only
  rw [subnormalLoop_of_ge _ _ h1]
  simp only
  rw [clampLoop_of_le _ _ h2]

/-- What a present result of `ToDecimal` is, for a weight that is present. -/
theorem ToDecimal_present (w : KafkaWeight) (d : Decimal128) (hs : InInt64 w.Scale)
    (hlen : w.Value.length < 2 ^ 31)
    (h : KafkaWeight.ToDecimal (some w) = .ok (some d)) :
    ∃ bytes : List Nat, ∃ b e : Int, DecodeString w.Value = some bytes ∧
      (∀ x ∈ bytes, x < 256) ∧ d = packDecimal128 b e ∧
      b.natAbs ≤ maxS ∧ MinDecimal128Exp ≤ e ∧ e ≤ MaxDecimal128Exp ∧
      (b : ℚ) * (10 : ℚ) ^ e = ((SetBytes bytes : Int) : ℚ) * (10 : ℚ) ^ (-w.Scale) := by
  cases hb : DecodeString w.Value with
  | none => simp [KafkaWeight.ToDecimal, hb] at h
  | some bytes =>
    rw [ToDecimal_some w bytes hb] at h
    have hp : ParseDecimal128FromBigInt (SetBytes bytes) (wrapInt64 (-w.Scale)) = some d := by
      simpa using h
    obtain ⟨hl, hx⟩ := DecodeString_bytes _ _ hb
    obtain ⟨b, e, hd, hbm, he1, he2, hv⟩ :=
      parse_weight_sound w.Scale bytes d hs (by omega) hx hp
    exact ⟨bytes, b, e, rfl, hx, hd, hbm, he1, he2, hv⟩

/-- The number a packed Decimal128 denotes. -/
theorem value_packDecimal128 (b e : Int) (hb : b.natAbs ≤ maxS) (h1 : MinDecimal128Exp ≤ e)
    (h2 : e ≤ MaxDecimal128Exp) :
    (packDecimal128 b e).value = some ((b : ℚ) * (10 : ℚ) ^ e) := by
  simp [Decimal128.value, BigInt_packDecimal128 b e hb h1 h2]

/-- Claim C1. For every KafkaWeight whose scale is a Go `int` and whose value is a text
shorter than 2^31 characters (as any text of a Kafka message is): if `ToDecimal` returns a
Decimal128, then the value is valid base64 and the decimal number the result denotes, its
coefficient times ten to its exponent as `Decimal128.BigInt` reads them back, is exactly
`N * 10^(-Scale)`, where `N` is the arbitrary-precision integer that the decoded bytes are
when read big-endian.  Nothing on the path rounds or truncates `N`. -/
theorem ToDecimal_exact (w : KafkaWeight) (d : Decimal128) (hs : InInt64 w.Scale)
    (hlen : w.Value.length < 2 ^ 31)
    (h : KafkaWeight.ToDecimal (some w) = .ok (some d)) :
    ∃ bytes : List Nat, DecodeString w.Value = some bytes ∧
      d.value = some (((SetBytes bytes : Int) : ℚ) * (10 : ℚ) ^ (-w.Scale)) := by
  obtain ⟨bytes, b, e, hb, _, hd, hbm, he1, he2, hv⟩ := ToDecimal_present w d hs hlen h
  exact ⟨bytes, hb, by rw [hd, value_packDecimal128 b e hbm he1 he2, hv]⟩

/-- Claim C1 at the weight of scale 2 and value `AfQ=` (the bytes 0x01 0xF4, N = 500). -/
theorem ToDecimal_exact_witness :
    ∃ bytes : List Nat, DecodeString "AfQ=" = some bytes ∧
      Decimal128.value { h := 3475653012423180288, l := 500 } =
        some (((SetBytes bytes : Int) : ℚ) * (10 : ℚ) ^ (-(2 : Int))) :=
  ToDecimal_exact { Scale := 2, Value := "AfQ=" } { h := 3475653012423180288, l := 500 }
    (by decide) (by decide)
    (by
      rw [ToDecimal_some _ [1, 244] (by decide)]
      have hw : wrapInt64 (-(2 : Int)) = -2 := by decide
      have hN : ((SetBytes [1, 244] : Nat) : Int) = 500 := by decide
      simp only [hw, hN]
      rw [ParseDecimal128FromBigInt_of_inRange 500 (-2) (by decide) (by decide) (by decide)]
      have hp : packDecimal128 500 (-2) = { h := 3475653012423180288, l := 500 } := by decide
      rw [hp])

/-- Claim C10. `ToDecimal` reads the decoded bytes as an unsigned big-endian integer: a
Decimal128 it returns has a coefficient that is not negative and denotes
`SetBytes bytes * 10^(-Scale)`.  In particular, when the first byte has its high bit set,
so that the bytes are the two's-complement encoding of a negative integer `v` of `k` bytes,
the result denotes `(v + 2^(8k)) * 10^(-Scale)` and not `v * 10^(-Scale)`. -/
theorem ToDecimal_unsigned (w : KafkaWeight) (d : Decimal128) (hs : InInt64 w.Scale)
    (hlen : w.Value.length < 2 ^ 31)
    (h : KafkaWeight.ToDecimal (some w) = .ok (some d)) :
    ∃ bytes : List Nat, ∃ c e : Int, DecodeString w.Value = some bytes ∧
      d.BigInt = some (c, e) ∧ 0 ≤ c ∧
      (c : ℚ) * (10 : ℚ) ^ e = ((SetBytes bytes : Int) : ℚ) * (10 : ℚ) ^ (-w.Scale) ∧
      ∀ b0 rest, bytes = b0 :: rest → 128 ≤ b0 →
        twosComplement bytes < 0 ∧
        (c : ℚ) * (10 : ℚ) ^ e =
          ((twosComplement bytes + 2 ^ (8 * bytes.length) : Int) : ℚ) * (10 : ℚ) ^ (-w.Scale) ∧
        (c : ℚ) * (10 : ℚ) ^ e ≠ ((twosComplement bytes : Int) : ℚ) * (10 : ℚ) ^ (-w.Scale) := by
  obtain ⟨bytes, b, e, hb, hx, hd, hbm, he1, he2, hv⟩ := ToDecimal_present w d hs hlen h
  have h10 : (0 : ℚ) < (10 : ℚ) ^ e := zpow_pos (by norm_num) e
  have h10s : (0 : ℚ) < (10 : ℚ) ^ (-w.Scale) := zpow_pos (by norm_num) _
  have hnn : 0 ≤ b := by
    by_contra hneg
    have hbq : (b : ℚ) < 0 := by exact_mod_cast (not_le.mp hneg)
    have h1 : (b : ℚ) * (10 : ℚ) ^ e < 0 := mul_neg_of_neg_of_pos hbq h10
    have h2 : (0 : ℚ) ≤ ((SetBytes bytes : Int) : ℚ) * (10 : ℚ) ^ (-w.Scale) :=
      mul_nonneg (by exact_mod_cast Int.natCast_nonneg _) h10s.le
    linarith
  refine ⟨bytes, b, e, hb, by rw [hd, BigInt_packDecimal128 b e hbm he1 he2], hnn, hv, ?_⟩
  intro b0 rest hbytes hhi
  have hlt := SetBytes_lt bytes hx
  have h256 : (256 : ℕ) ^ bytes.length = 2 ^ (8 * bytes.length) := by
    rw [pow_mul]; norm_num
  have htc : twosComplement bytes = (SetBytes bytes : Int) - 2 ^ (8 * bytes.length) := by
    subst hbytes
    simp [twosComplement, hhi]
  have hneg : twosComplement bytes < 0 := by
    rw [htc]
    have : ((SetBytes bytes : ℕ) : Int) < ((2 ^ (8 * bytes.length) : ℕ) : Int) := by
      rw [← h256]; exact_mod_cast hlt
    push_cast at this
    omega
  refine ⟨hneg, ?_, ?_⟩
  · rw [hv, htc]; congr 2; ring
  · rw [hv]
    intro heq
    have := mul_right_cancel₀ (ne_of_gt h10s) heq
    have h3 : ((SetBytes bytes : ℕ) : Int) = twosComplement bytes := by exact_mod_cast this
    omega

/-- Claim C10 at the weight of scale 0 and value `/w==`: the single byte 0xFF, which is -1
in two's complement, gives the coefficient 255. -/
theorem ToDecimal_unsigned_witness :
    twosComplement [255] = -1 ∧
    Decimal128.BigInt { h := 3476778912330022912, l := 255 } = some (255, 0) ∧
    ∃ bytes : List Nat, ∃ c e : Int, DecodeString "/w==" = some bytes ∧
      Decimal128.BigInt { h := 3476778912330022912, l := 255 } = some (c, e) ∧ 0 ≤ c ∧
      (c : ℚ) * (10 : ℚ) ^ e = ((SetBytes bytes : Int) : ℚ) * (10 : ℚ) ^ (-(0 : Int)) ∧
      ∀ b0 rest, bytes = b0 :: rest → 128 ≤ b0 →
        twosComplement bytes < 0 ∧
        (c : ℚ) * (10 : ℚ) ^ e =
          ((twosComplement bytes + 2 ^ (8 * bytes.length) : Int) : ℚ) * (10 : ℚ) ^ (-(0 : Int)) ∧
        (c : ℚ) * (10 : ℚ) ^ e ≠ ((twosComplement bytes : Int) : ℚ) * (10 : ℚ) ^ (-(0 : Int)) :=
  ⟨by decide, by decide,
    ToDecimal_unsigned { Scale := 0, Value := "/w==" } { h := 3476778912330022912, l := 255 }
      (by decide) (by decide)
      (by
        rw [ToDecimal_some _ [255] (by decide)]
        have hw : wrapInt64 (-(0 : Int)) = 0 := by decide
        have hN : ((SetBytes [255] : Nat) : Int) = 255 := by decide
        simp only [hw, hN]
        rw [ParseDecimal128FromBigInt_of_inRange 255 0 (by decide) (by decide) (by decide)]
        have hp : packDecimal128 255 0 = { h := 3476778912330022912, l := 255 } := by decide
        rw [hp])⟩

/-! ### The store -/

/-- The collection after a successful upsert of `fields` under `id`. -/
theorem UpdateOne_upsert (products : Collection) (id : Int) (fields : List (String × BsonValue)) :
    UpdateOne false products id fields true =
      some fun k => if k = id then some (applySet ((products id).getD fun _ => none) fields)
        else products k := by
  unfold UpdateOne
  cases h : products id <;> simp

/-- Setting the same fields twice is setting them once. -/
theorem applySet_applySet (doc : Document) (fields : List (String × BsonValue)) :
    applySet (applySet doc fields) fields = applySet doc fields := by
  funext name
  simp only [applySet]
  cases h : fields.lookup name <;> simp

/-- `SaveProduct` when `ToDecimal` returns and the store accepts the update. -/
theorem SaveProduct_ok (env : Env) (products : Collection) (p : Product)
    (weight : Option Decimal128) (henv : env.storeError = false)
    (hw : KafkaWeight.ToDecimal p.Weight = .ok weight) :
    SaveProduct env products p =
      .ok fun k => if k = p.Id then
          some (applySet ((products p.Id).getD fun _ => none) (p.update weight))
        else products k := by
  unfold SaveProduct
  rw [hw, henv]
  simp only [UpdateOne_upsert]

/-- `SaveProduct` returns only in that case. -/
theorem SaveProduct_ok_inv (env : Env) (products products1 : Collection) (p : Product)
    (h : SaveProduct env products p = .ok products1) :
    env.storeError = false ∧ ∃ weight, KafkaWeight.ToDecimal p.Weight = .ok weight := by
  unfold SaveProduct at h
  cases hw : KafkaWeight.ToDecimal p.Weight with
  | error e => simp [hw] at h
  | ok weight =>
    refine ⟨?_, weight, rfl⟩
    cases he : env.storeError with
    | false => rfl
    | true => simp [hw, he, UpdateOne] at h

/-- The fields of the document `SaveProduct` leaves. -/
theorem applySet_update (doc : Document) (p : Product) (weight : Option Decimal128) :
    applySet doc (p.update weight) "name" = some (.string p.Name) ∧
    applySet doc (p.update weight) "weight" = some (decimalValue weight) ∧
    applySet doc (p.update weight) "weight_uom_id" = some (.string p.WeightUomId) ∧
    applySet doc (p.update weight) "unit_uom_id" = some (.string p.UnitUomId) ∧
    applySet doc (p.update weight) "description" = some (.string p.Description) ∧
    applySet doc (p.update weight) "created_at" = some (.dateTime p.CreatedAt) ∧
    applySet doc (p.update weight) "updated_at" = some (.dateTime p.UpdatedAt) := by
  refine ⟨?_, ?_, ?_, ?_, ?_, ?_, ?_⟩ <;> simp [applySet, Product.update, List.lookup]

/-- Claim C8. `SaveProduct` is idempotent on the store seen as a map from `_id` to
document: if `SaveProduct(p)` returns on a store, leaving `products1`, then `SaveProduct(p)`
on `products1` returns and leaves `products1` again; `products1` holds a document under
`p.Id`, the one record of that `_id`, and every other `_id` is as before. -/
theorem SaveProduct_idempotent (env : Env) (products products1 : Collection) (p : Product)
    (h : SaveProduct env products p = .ok products1) :
    SaveProduct env products1 p = .ok products1 ∧ (∃ doc, products1 p.Id = some doc) ∧
      ∀ k, k ≠ p.Id → products1 k = products k := by
  obtain ⟨henv, weight, hw⟩ := SaveProduct_ok_inv env products products1 p h
  rw [SaveProduct_ok env products p weight henv hw] at h
  have h1 : products1 = fun k => if k = p.Id then
      some (applySet ((products p.Id).getD fun _ => none) (p.update weight)) else products k := by
    injection h with h; exact h.symm
  refine ⟨?_, ?_, ?_⟩
  · rw [SaveProduct_ok env products1 p weight henv hw]
    congr 1
    funext k
    by_cases hk : k = p.Id
    · subst hk
      simp [h1, applySet_applySet]
    · simp [hk]
  · rw [h1]; exact ⟨_, if_pos rfl⟩
  · intro k hk
    rw [h1]; simp [hk]

/-- Claim C9. `DeleteProduct` is idempotent on the store seen as a map from `_id` to
document: when the store accepts the call, `DeleteProduct(id)` returns, a second
`DeleteProduct(id)` returns and leaves the same store, in which `id` is absent and every
other entity is unchanged; on a store where `id` is absent already the call returns as well
and leaves the store as it was. -/
theorem DeleteProduct_idempotent (env : Env) (products : Collection) (id : Int)
    (henv : env.storeError = false) :
    ∃ products1, DeleteProduct env products id = .ok products1 ∧
      DeleteProduct env products1 id = .ok products1 ∧ products1 id = none ∧
      (∀ k, k ≠ id → products1 k = products k) ∧
      (products id = none → products1 = products) := by
  refine ⟨fun k => if k = id then none else products k, ?_, ?_, by simp, ?_, ?_⟩
  · simp [DeleteProduct, DeleteOne, henv]
  · simp only [DeleteProduct, DeleteOne, henv]
    simp only [Bool.false_eq_true, if_false]
    congr 1
    funext k
    by_cases hk : k = id <;> simp [hk]
  · intro k hk; simp [hk]
  · intro hnone
    funext k
    by_cases hk : k = id
    · subst hk; simp [hnone]
    · simp [hk]

/-- The weight 500 x 10^(-2), sent as base64 of the bytes 0x01 0xF4. -/
theorem ToDecimal_five : KafkaWeight.ToDecimal (some { Scale := 2, Value := "AfQ=" }) =
    .ok (some { h := 3475653012423180288, l := 500 }) := by
  rw [ToDecimal_some _ [1, 244] (by decide)]
  have hw : wrapInt64 (-(2 : Int)) = -2 := by decide
  have hN : ((SetBytes [1, 244] : Nat) : Int) = 500 := by decide
  simp only [hw, hN]
  rw [ParseDecimal128FromBigInt_of_inRange 500 (-2) (by decide) (by decide) (by decide)]
  have hp : packDecimal128 500 (-2) = { h := 3475653012423180288, l := 500 } := by decide
  rw [hp]

/-- The weight 1 x 10^(-7000) is below the range of Decimal128: `ToDecimal` returns nil. -/
theorem ToDecimal_tiny : KafkaWeight.ToDecimal (some { Scale := 7000, Value := "AQ==" }) =
    .ok none := by
  rw [ToDecimal_some _ [1] (by decide)]
  have hw : wrapInt64 (-(7000 : Int)) = -7000 := by decide
  have hN : ((SetBytes [1] : Nat) : Int) = 1 := by decide
  simp only [hw, hN]
  unfold ParseDecimal128FromBigInt
  rw [normalizeLoop_of_le 1 (-7000) (by decide)]
  simp only
  have h2 : subnormalLoop 1 (-7000) = none := by
    rw [subnormalLoop]; decide
  rw [h2]

/-- The value 1 x 10^(-7000) has no Decimal128. -/
theorem not_representable_tiny :
    ¬ Representable (((SetBytes [1] : Int) : ℚ) * (10 : ℚ) ^ (-(7000 : Int))) := by
  rintro ⟨c, e, _, he1, _, heq⟩
  have hN : ((SetBytes [1] : Nat) : Int) = 1 := by decide
  rw [hN] at heq
  have hint := int_eq_of_decimal_eq c 1 e (-7000) (by unfold MinDecimal128Exp at he1; omega) heq.symm
  have := eq_zero_of_eq_mul_pow 1 c _ 1 (by decide) (by unfold MinDecimal128Exp at he1; omega) hint
  exact absurd this (by decide)

/-- Claim C4. For every Product whose weight has a valid base64 value (a text shorter than
2^31 characters, with a scale that is a Go `int`) and whose value `N * 10^(-Scale)` no
Decimal128 can hold (no coefficient of at most 34 decimal digits with an exponent of the
range of the format equals it): `ToDecimal` returns nil without a panic, and `SaveProduct`,
when the store accepts the update, returns and leaves under `p.Id` a document whose weight
is null and whose fields name, weight_uom_id, unit_uom_id, description, created_at and
updated_at are those of the product. -/
theorem SaveProduct_unrepresentable_weight (env : Env) (products : Collection) (p : Product)
    (w : KafkaWeight) (bytes : List Nat) (hw : p.Weight = some w) (hs : InInt64 w.Scale)
    (hlen : w.Value.length < 2 ^ 31) (hb : DecodeString w.Value = some bytes)
    (hn : ¬ Representable (((SetBytes bytes : Int) : ℚ) * (10 : ℚ) ^ (-w.Scale)))
    (henv : env.storeError = false) :
    KafkaWeight.ToDecimal p.Weight = .ok none ∧
    ∃ products1 doc, SaveProduct env products p = .ok products1 ∧
      products1 p.Id = some doc ∧
      doc "weight" = some .null ∧
      doc "name" = some (.string p.Name) ∧
      doc "weight_uom_id" = some (.string p.WeightUomId) ∧
      doc "unit_uom_id" = some (.string p.UnitUomId) ∧
      doc "description" = some (.string p.Description) ∧
      doc "created_at" = some (.dateTime p.CreatedAt) ∧
      doc "updated_at" = some (.dateTime p.UpdatedAt) := by
  have hnil : KafkaWeight.ToDecimal p.Weight = .ok none := by
    rw [hw]
    cases hd : KafkaWeight.ToDecimal (some w) with
    | error e => rw [ToDecimal_some w bytes hb] at hd; exact absurd hd (by simp)
    | ok r =>
      cases r with
      | none => rfl
      | some d =>
        exfalso
        obtain ⟨bytes', b, e, hb', _, _, hbm, he1, he2, hv⟩ := ToDecimal_present w d hs hlen hd
        rw [hb] at hb'
        injection hb' with hb'
        subst hb'
        exact hn ⟨b, e, hbm, he1, he2, hv.symm⟩
  refine ⟨hnil, _, _, SaveProduct_ok env products p none henv hnil, if_pos rfl, ?_⟩
  obtain ⟨h1, h2, h3, h4, h5, h6, h7⟩ :=
    applySet_update ((products p.Id).getD fun _ => none) p none
  exact ⟨h2, h1, h3, h4, h5, h6, h7⟩

/-! ### The consume loop: commit and decoding errors -/

/-- A call that returns. -/
theorem call_ok (env : Env) (st : State) (c : Call) (products1 : Collection)
    (h : c.run env st.products = .ok products1) :
    st.call env c =
      { state := { st with products := products1, calls := st.calls ++ [c] }, panic := none } := by
  simp [State.call, h]

/-- A call that panics. -/
theorem call_error (env : Env) (st : State) (c : Call) (p : Panic)
    (h : c.run env st.products = .error p) :
    st.call env c = { state := { st with calls := st.calls ++ [c] }, panic := some p } := by
  simp [State.call, h]

/-- Lines 154-173 either panic while decoding, before any call, or make one call. -/
theorem decodeAndApply_cases (parseTime : String → Option Time) (env : Env) (st : State)
    (msg : Message) :
    (∃ p, decodeAndApply parseTime env st msg = { state := st, panic := some p }) ∨
    (∃ c, decodeAndApply parseTime env st msg = st.call env c) := by
  unfold decodeAndApply
  split
  · split
    · exact Or.inl ⟨_, rfl⟩
    · exact Or.inr ⟨_, rfl⟩
  · split
    · exact Or.inl ⟨_, rfl⟩
    · split
      · split
        · exact Or.inl ⟨_, rfl⟩
        · exact Or.inr ⟨_, rfl⟩
      · exact Or.inr ⟨_, rfl⟩

/-- A list is not itself with one more element. -/
theorem append_singleton_ne {α : Type} (l : List α) (a : α) : l ≠ l ++ [a] := by
  intro h
  have := congrArg List.length h
  simp at this

/-- The iteration when decoding panics. -/
theorem iteration_decode_panic (parseTime : String → Option Time) (env : Env) (st : State)
    (msg : Message) (p : Panic)
    (h : decodeAndApply parseTime env st msg = { state := st, panic := some p }) :
    iteration parseTime env st (some msg) = { state := st, panic := some p } := by
  simp [iteration, h]

/-- The iteration when the call panics. -/
theorem iteration_call_panic (parseTime : String → Option Time) (env : Env) (st : State)
    (msg : Message) (c : Call) (p : Panic)
    (h : decodeAndApply parseTime env st msg = st.call env c)
    (hr : c.run env st.products = .error p) :
    iteration parseTime env st (some msg) =
      { state := { st with calls := st.calls ++ [c] }, panic := some p } := by
  simp [iteration, h, call_error env st c p hr]

/-- The iteration when the call returns and the commit fails. -/
theorem iteration_commit_panic (parseTime : String → Option Time) (env : Env) (st : State)
    (msg : Message) (c : Call) (products1 : Collection)
    (h : decodeAndApply parseTime env st msg = st.call env c)
    (hr : c.run env st.products = .ok products1) (he : env.commitError = true) :
    iteration parseTime env st (some msg) =
      { state := { st with products := products1, calls := st.calls ++ [c] },
        panic := some Panic.commitMessage } := by
  simp [iteration, h, call_ok env st c products1 hr, he]

/-- The iteration when the call returns and the commit succeeds. -/
theorem iteration_ok (parseTime : String → Option Time) (env : Env) (st : State)
    (msg : Message) (c : Call) (products1 : Collection)
    (h : decodeAndApply parseTime env st msg = st.call env c)
    (hr : c.run env st.products = .ok products1) (he : env.commitError = false) :
    iteration parseTime env st (some msg) =
      { state := { products := products1, calls := st.calls ++ [c],
                   committed := st.committed ++ [msg.TopicPartition] },
        panic := none } := by
  simp [iteration, h, call_ok env st c products1 hr, he]

/-- Claim C2, amended. For one iteration of the loop, every message, every state and
every outcome of the calls to the outside: the position of the message is committed if and
only if the delete or upsert chosen for it was called and returned and, further,
`CommitMessage` itself returned no error.  When the iteration ends in a panic (decoding
failed, the store operation failed, or the commit failed) the committed positions are
unchanged; when it does not, the position has been committed. -/
theorem commit_iff_applied_and_commit_ok (parseTime : String → Option Time) (env : Env)
    (st : State) (msg : Message) :
    ((iteration parseTime env st (some msg)).state.committed =
        st.committed ++ [msg.TopicPartition] ↔
      (∃ call products1,
          (iteration parseTime env st (some msg)).state.calls = st.calls ++ [call] ∧
          call.run env st.products = .ok products1) ∧ env.commitError = false) ∧
    ((iteration parseTime env st (some msg)).panic ≠ none →
      (iteration parseTime env st (some msg)).state.committed = st.committed) ∧
    ((iteration parseTime env st (some msg)).panic = none →
      (iteration parseTime env st (some msg)).state.committed =
        st.committed ++ [msg.TopicPartition]) := by
  rcases decodeAndApply_cases parseTime env st msg with ⟨p, hp⟩ | ⟨c, hc⟩
  · rw [iteration_decode_panic parseTime env st msg p hp]
    refine ⟨⟨fun h => absurd h (append_singleton_ne _ _), ?_⟩, fun _ => rfl,
      fun h => Option.noConfusion h⟩
    rintro ⟨⟨call, _, h, _⟩, _⟩
    exact absurd h (append_singleton_ne _ _)
  · cases hr : c.run env st.products with
    | error p =>
      rw [iteration_call_panic parseTime env st msg c p hc hr]
      refine ⟨⟨fun h => absurd h (append_singleton_ne _ _), ?_⟩, fun _ => rfl,
        fun h => Option.noConfusion h⟩
      rintro ⟨⟨call, products1, h, hok⟩, _⟩
      have hcc : c = call := by simpa using h
      subst hcc
      rw [hr] at hok
      exact absurd hok (by simp)
    | ok products1 =>
      cases he : env.commitError with
      | true =>
        rw [iteration_commit_panic parseTime env st msg c products1 hc hr he]
        refine ⟨⟨fun h => absurd h (append_singleton_ne _ _), ?_⟩, fun _ => rfl,
          fun h => Option.noConfusion h⟩
        rintro ⟨_, h⟩
        exact absurd h (by simp)
      | false =>
        rw [iteration_ok parseTime env st msg c products1 hc hr he]
        exact ⟨⟨fun _ => ⟨⟨c, products1, rfl, hr⟩, rfl⟩, fun _ => rfl⟩,
          fun h => absurd rfl h, fun _ => rfl⟩

/-- Claim C3, amended. For every message on which `json.Unmarshal` returns an error (the
key of a message with an empty value, or else the value, is not well-formed JSON or gives a
field a value of the wrong JSON type), the decoding step of `main` is fatal: the iteration
ends in the panic of that step, neither `DeleteProduct` nor `SaveProduct` is called, the
store is unchanged and the position is not committed. -/
theorem decode_error_is_fatal (parseTime : String → Option Time) (env : Env) (st : State)
    (msg : Message)
    (h : (msg.Value.length = 0 ∧ UnmarshalKafkaKey msg.Key = none) ∨
      (msg.Value.length ≠ 0 ∧ UnmarshalKafkaMessage parseTime msg.Value = none)) :
    ((iteration parseTime env st (some msg)).panic = some Panic.unmarshalKey ∨
      (iteration parseTime env st (some msg)).panic = some Panic.unmarshalValue) ∧
    (iteration parseTime env st (some msg)).state.calls = st.calls ∧
    (iteration parseTime env st (some msg)).state.products = st.products ∧
    (iteration parseTime env st (some msg)).state.committed = st.committed := by
  rcases h with ⟨hv, hk⟩ | ⟨hv, hm⟩
  · simp [iteration, decodeAndApply, hv, hk]
  · simp [iteration, decodeAndApply, hv, hm]

/-! ### Decimal128: every value the format can hold is stored -/

/-- Divisibility by ten seen by the truncated remainder. -/
theorem tmod_ten_of_eq_mul_pow (bi c : Int) (k : ℕ) (hk : 1 ≤ k) (h : bi = c * 10 ^ k) :
    bi.tmod 10 = 0 := by
  obtain ⟨j, rfl⟩ : ∃ j, k = j + 1 := ⟨k - 1, by omega⟩
  have : bi = 10 * (c * 10 ^ j) := by rw [h]; ring
  rw [this]
  exact Int.mul_tmod_right _ _

/-- A coefficient above the largest one needs a larger exponent to be held. -/
theorem exp_lt_of_representable (bi exp c e : Int) (hc : c.natAbs ≤ maxS)
    (hbig : maxS < bi.natAbs)
    (h : (c : ℚ) * (10 : ℚ) ^ e = (bi : ℚ) * (10 : ℚ) ^ exp) : exp < e := by
  by_contra hle
  have hint := int_eq_of_decimal_eq bi c exp e (by omega) h.symm
  have := natAbs_le_of_eq_mul_pow c bi _ hint
  omega

/-- The first loop does not fail on a value that a Decimal128 can hold. -/
theorem normalizeLoop_complete (bi exp c e : Int) (hr : InInt64 exp)
    (hnw : bi.natAbs ≤ maxS ∨ exp ≠ 2 ^ 63 - 1)
    (hc : c.natAbs ≤ maxS) (he : e ≤ MaxDecimal128Exp)
    (h : (c : ℚ) * (10 : ℚ) ^ e = (bi : ℚ) * (10 : ℚ) ^ exp) :
    ∃ b1 e1, normalizeLoop bi exp = some (b1, e1) := by
  induction bi, exp using normalizeLoop.induct with
  | case1 bi exp hgt hmod =>
    exfalso
    have hlt := exp_lt_of_representable bi exp c e hc hgt h
    have hint := int_eq_of_decimal_eq c bi e exp (by omega) h
    exact hmod (tmod_ten_of_eq_mul_pow bi c _ (by omega) hint)
  | case2 bi exp hgt hmod exp1 hexp =>
    exfalso
    have hlt := exp_lt_of_representable bi exp c e hc hgt h
    have hne : exp ≠ 2 ^ 63 - 1 := by
      rcases hnw with h' | h'
      · omega
      · exact h'
    have hw : wrapInt64 (exp + 1) = exp + 1 := by
      apply wrapInt64_of_inRange
      unfold InInt64 at *; omega
    simp only [exp1, hw] at hexp
    omega
  | case3 bi exp hgt hmod exp1 hexp ih =>
    have hmod0 : bi.tmod 10 = 0 := by simpa using hmod
    have hne : exp ≠ 2 ^ 63 - 1 := by
      rcases hnw with h' | h'
      · omega
      · exact h'
    have hw : wrapInt64 (exp + 1) = exp + 1 := by
      apply wrapInt64_of_inRange
      unfold InInt64 at *; omega
    simp only [exp1, hw] at hexp ih
    have hle : exp + 1 ≤ MaxDecimal128Exp := by omega
    have hr1 : InInt64 (exp + 1) := by
      unfold InInt64 at *; unfold MaxDecimal128Exp at hle; omega
    have hval : (c : ℚ) * (10 : ℚ) ^ e = ((bi.tdiv 10 : Int) : ℚ) * (10 : ℚ) ^ (exp + 1) := by
      rw [h]
      have hten := eq_ten_mul_tdiv bi hmod0
      have hq : (bi : ℚ) = ((bi.tdiv 10 : Int) : ℚ) * (10 : ℚ) ^ (1 : ℕ) := by
        rw [pow_one]; exact_mod_cast congrArg (fun z : Int => (z : ℚ)) hten
      rw [hq, ten_zpow_shift]; norm_num
    obtain ⟨b1, e1, hres⟩ :=
      ih hr1 (Or.inr (by unfold MaxDecimal128Exp at hle; omega)) hval
    refine ⟨b1, e1, ?_⟩
    rw [normalizeLoop]
    simp only [hgt, if_true, hw, hmod0, ne_eq, not_true_eq_false, if_false]
    simpa [hexp] using hres
  | case4 bi exp hle =>
    exact ⟨bi, exp, normalizeLoop_of_le bi exp (by omega)⟩


/-- The second loop does not fail on a value that a Decimal128 can hold. -/
theorem subnormalLoop_complete (bi exp c e : Int) (he : MinDecimal128Exp ≤ e)
    (h : (c : ℚ) * (10 : ℚ) ^ e = (bi : ℚ) * (10 : ℚ) ^ exp) :
    ∃ b2 e2, subnormalLoop bi exp = some (b2, e2) := by
  induction bi, exp using subnormalLoop.induct with
  | case1 bi exp hlt hmod =>
    exfalso
    have hint := int_eq_of_decimal_eq c bi e exp (by omega) h
    exact hmod (tmod_ten_of_eq_mul_pow bi c _ (by omega) hint)
  | case2 bi exp hlt hmod ih =>
    have hmod0 : bi.tmod 10 = 0 := by simpa using hmod
    have hval : (c : ℚ) * (10 : ℚ) ^ e = ((bi.tdiv 10 : Int) : ℚ) * (10 : ℚ) ^ (exp + 1) := by
      rw [h]
      have hten := eq_ten_mul_tdiv bi hmod0
      have hq : (bi : ℚ) = ((bi.tdiv 10 : Int) : ℚ) * (10 : ℚ) ^ (1 : ℕ) := by
        rw [pow_one]; exact_mod_cast congrArg (fun z : Int => (z : ℚ)) hten
      rw [hq, ten_zpow_shift]; norm_num
    obtain ⟨b2, e2, hres⟩ := ih hval
    refine ⟨b2, e2, ?_⟩
    rw [subnormalLoop]
    simpa [hlt, hmod0] using hres
  | case3 bi exp hge =>
    exact ⟨bi, exp, subnormalLoop_of_ge bi exp (by omega)⟩

/-- The third loop does not fail on a value that a Decimal128 can hold. -/
theorem clampLoop_complete (bi exp c e : Int) (hc : c.natAbs ≤ maxS)
    (he : e ≤ MaxDecimal128Exp)
    (h : (c : ℚ) * (10 : ℚ) ^ e = (bi : ℚ) * (10 : ℚ) ^ exp) :
    ∃ b3 e3, clampLoop bi exp = some (b3, e3) := by
  induction bi, exp using clampLoop.induct with
  | case1 bi exp hgt hbig =>
    exfalso
    have hval : (c : ℚ) * (10 : ℚ) ^ e = ((bi * 10 : Int) : ℚ) * (10 : ℚ) ^ (exp - 1) := by
      rw [h]; push_cast
      have := ten_zpow_shift (bi : ℚ) 1 (exp - 1)
      rw [pow_one] at this
      rw [this]; norm_num
    have hint := int_eq_of_decimal_eq (bi * 10) c (exp - 1) e (by omega) hval.symm
    have := natAbs_le_of_eq_mul_pow c (bi * 10) _ hint
    omega
  | case2 bi exp hgt hbig ih =>
    have hval : (c : ℚ) * (10 : ℚ) ^ e = ((bi * 10 : Int) : ℚ) * (10 : ℚ) ^ (exp - 1) := by
      rw [h]; push_cast
      have := ten_zpow_shift (bi : ℚ) 1 (exp - 1)
      rw [pow_one] at this
      rw [this]; norm_num
    obtain ⟨b3, e3, hres⟩ := ih hval
    refine ⟨b3, e3, ?_⟩
    rw [clampLoop]
    simpa [hgt, hbig] using hres
  | case3 bi exp hle =>
    exact ⟨bi, exp, clampLoop_of_le bi exp (by omega)⟩

/-- `ParseDecimal128FromBigInt` succeeds on a value that a Decimal128 can hold, when its
computation does not wrap the exponent. -/
theorem ParseDecimal128FromBigInt_complete (bi exp : Int) (hr : InInt64 exp)
    (hnw : bi.natAbs ≤ maxS ∨ exp ≠ 2 ^ 63 - 1)
    (hrep : Representable ((bi : ℚ) * (10 : ℚ) ^ exp)) :
    ∃ d, ParseDecimal128FromBigInt bi exp = some d := by
  obtain ⟨c, e, hc, he1, he2, hv⟩ := hrep
  obtain ⟨b1, e1, h1⟩ := normalizeLoop_complete bi exp c e hr hnw hc he2 hv.symm
  have hb1 : b1.natAbs ≤ maxS ∧ (b1 : ℚ) * (10 : ℚ) ^ e1 = (bi : ℚ) * (10 : ℚ) ^ exp := by
    by_cases hsmall : bi.natAbs ≤ maxS
    · rw [normalizeLoop_of_le _ _ hsmall] at h1
      simp only [Option.some.injEq, Prod.mk.injEq] at h1
      obtain ⟨rfl, rfl⟩ := h1
      exact ⟨hsmall, rfl⟩
    · have hlt := exp_lt_of_representable bi exp c e hc (by omega) hv.symm
      obtain ⟨hb, k, hk, hek, _⟩ := normalizeLoop_spec bi exp b1 e1 hr (by omega) h1
      refine ⟨hb, ?_⟩
      have hq : (bi : ℚ) = (b1 : ℚ) * (10 : ℚ) ^ k := by
        exact_mod_cast congrArg (fun z : Int => (z : ℚ)) hk
      rw [hq, ten_zpow_shift, hek]
  obtain ⟨b2, e2, h2⟩ := subnormalLoop_complete b1 e1 c e he1 (hv.symm.trans hb1.2.symm)
  have hb2 : (b2 : ℚ) * (10 : ℚ) ^ e2 = (b1 : ℚ) * (10 : ℚ) ^ e1 := by
    by_cases hlo : e1 < MinDecimal128Exp
    · obtain ⟨he2', hb⟩ := subnormalLoop_spec b1 e1 b2 e2 hlo h2
      have hq : (b1 : ℚ) = (b2 : ℚ) * (10 : ℚ) ^ (MinDecimal128Exp - e1).toNat := by
        exact_mod_cast congrArg (fun z : Int => (z : ℚ)) hb
      rw [hq, ten_zpow_shift]
      congr 1
      rw [he2', Int.toNat_of_nonneg (by omega)]; ring_nf
    · rw [subnormalLoop_of_ge _ _ (by omega)] at h2
      simp only [Option.some.injEq, Prod.mk.injEq] at h2
      obtain ⟨rfl, rfl⟩ := h2
      rfl
  obtain ⟨b3, e3, h3⟩ :=
    clampLoop_complete b2 e2 c e hc he2 (hv.symm.trans (hb1.2.symm.trans hb2.symm))
  exact ⟨packDecimal128 b3 e3, by simp [ParseDecimal128FromBigInt, h1, h2, h3]⟩

/-- Zero passes the second loop. -/
theorem subnormalLoop_zero (exp : Int) : ∃ e2, subnormalLoop 0 exp = some (0, e2) := by
  obtain ⟨b2, e2, h⟩ := subnormalLoop_complete 0 exp 0 MinDecimal128Exp (le_refl _) (by simp)
  by_cases hlo : exp < MinDecimal128Exp
  · obtain ⟨_, hb⟩ := subnormalLoop_spec 0 exp b2 e2 hlo h
    have hz : b2 = 0 := by
      rcases mul_eq_zero.mp hb.symm with h' | h'
      · exact h'
      · exact absurd h' (pow_ne_zero _ (by decide))
    exact ⟨e2, by rw [h, hz]⟩
  · exact ⟨exp, subnormalLoop_of_ge 0 exp (by omega)⟩

/-- `ParseDecimal128FromBigInt` succeeds on zero, whatever the exponent. -/
theorem ParseDecimal128FromBigInt_zero (exp : Int) :
    ∃ d, ParseDecimal128FromBigInt 0 exp = some d := by
  obtain ⟨e2, h2⟩ := subnormalLoop_zero exp
  obtain ⟨b3, e3, h3⟩ := clampLoop_complete 0 e2 0 MaxDecimal128Exp (by decide) (le_refl _)
    (by simp)
  exact ⟨packDecimal128 b3 e3, by
    simp [ParseDecimal128FromBigInt, normalizeLoop_of_le 0 exp (by decide), h2, h3]⟩

/-- `ToDecimal` returns a Decimal128 for every weight whose value one can hold. -/
theorem parse_weight_complete (scale : Int) (bytes : List Nat)
    (hs : InInt64 scale)
    (hrep : Representable (((SetBytes bytes : Int) : ℚ) * (10 : ℚ) ^ (-scale))) :
    ∃ d, ParseDecimal128FromBigInt (SetBytes bytes) (wrapInt64 (-scale)) = some d := by
  generalize (SetBytes bytes : Int) = n at *
  by_cases hsmall : n.natAbs ≤ maxS
  · by_cases hmin : scale = -2 ^ 63
    · -- the true exponent is `2^63`: only zero can be held
      obtain ⟨c, e, hc, he1, he2, hv⟩ := hrep
      have hint := int_eq_of_decimal_eq n c (-scale) e
        (by unfold MaxDecimal128Exp at he2; omega) hv
      have hle := natAbs_le_of_eq_mul_pow c n _ hint
      have hz : n = 0 := by
        by_contra hne
        have h1 : 1 ≤ n.natAbs := Int.natAbs_pos.mpr hne
        have h2 : c.natAbs = n.natAbs * 10 ^ (-scale - e).toNat := by
          rw [hint, Int.natAbs_mul, Int.natAbs_pow]; rfl
        have h3 : (10 : ℕ) ^ 35 ≤ 10 ^ (-scale - e).toNat :=
          Nat.pow_le_pow_right (by decide) (by unfold MaxDecimal128Exp at he2; omega)
        have h4 : (10 : ℕ) ^ (-scale - e).toNat ≤ n.natAbs * 10 ^ (-scale - e).toNat :=
          Nat.le_mul_of_pos_left _ h1
        unfold maxS at hc
        omega
      rw [hz]
      exact ParseDecimal128FromBigInt_zero _
    · have hr : InInt64 (-scale) := by unfold InInt64 at *; omega
      rw [wrapInt64_of_inRange _ hr]
      exact ParseDecimal128FromBigInt_complete n (-scale) hr (Or.inl hsmall) hrep
  · have hbig : maxS < n.natAbs := by omega
    obtain ⟨c, e, hc, he1, he2, hv⟩ := hrep
    have hlt := exp_lt_of_representable n (-scale) c e hc hbig hv.symm
    have hr : InInt64 (-scale) := by
      unfold InInt64 at *; unfold MaxDecimal128Exp at he2; omega
    rw [wrapInt64_of_inRange _ hr]
    exact ParseDecimal128FromBigInt_complete n (-scale) hr
      (Or.inr (by unfold MaxDecimal128Exp at he2; omega)) ⟨c, e, hc, he1, he2, hv⟩

/-! ### Decoded integers are in range -/

/-- A result of `ParseInt` is of the range of `int64`. -/
theorem ParseInt_inRange (raw : List Char) (x : Int) (h : ParseInt raw = some x) : InInt64 x := by
  unfold ParseInt at h
  simp only [Option.bind_eq_some] at h
  obtain ⟨v, _, hv⟩ := h
  split at hv
  · simp only [Option.some.injEq] at hv; subst hv; assumption
  · simp at hv
/-- An integer field stays of the range of `int64`. -/
theorem storeInt_inRange (cur : Int) (v : JSON) (x : Int) (hc : InInt64 cur)
    (h : storeInt cur v = some x) : InInt64 x := by
  unfold storeInt at h
  split at h
  · simp only [Option.some.injEq] at h; subst h; exact hc
  · exact ParseInt_inRange _ _ h
  · simp at h
/-- A property kept by every step is kept by a fold that succeeds. -/
theorem foldlM_invariant {α β : Type} (P : α → Prop) (f : α → β → Option α)
    (hf : ∀ a m b, P a → f a m = some b → P b) :
    ∀ (l : List β) (init r : α), P init → l.foldlM f init = some r → P r
  | [], init, r, hi, h => by
    simp only [List.foldlM, pure, Option.some.injEq] at h
    subst h; exact hi
  | m :: ms, init, r, hi, h => by
    simp only [List.foldlM, bind, Option.bind_eq_some] at h
    obtain ⟨a, ha, hrest⟩ := h
    exact foldlM_invariant P f hf ms a r (hf init m a hi ha) hrest
/-- Storing a member keeps the scale of a weight in range. -/
theorem KafkaWeight_storeMember_scale (w : KafkaWeight) (m : List Char × JSON)
    (w1 : KafkaWeight) (hw : InInt64 w.Scale) (h : w.storeMember m = some w1) :
    InInt64 w1.Scale := by
  unfold KafkaWeight.storeMember at h
  split at h
  · simp only [Option.map_eq_some'] at h
    obtain ⟨x, hx, rfl⟩ := h
    exact storeInt_inRange _ _ _ hw hx
  · split at h
    · simp only [Option.map_eq_some'] at h
      obtain ⟨x, _, rfl⟩ := h
      exact hw
    · simp only [Option.some.injEq] at h; subst h; exact hw
/-- A stored weight has a scale in range. -/
theorem storeKafkaWeight_scale (cur r : Option KafkaWeight) (v : JSON)
    (hc : ∀ w, cur = some w → InInt64 w.Scale) (h : storeKafkaWeight cur v = some r) :
    ∀ w, r = some w → InInt64 w.Scale := by
  unfold storeKafkaWeight at h
  split at h
  · simp only [Option.some.injEq] at h; subst h; intro w hw; exact absurd hw (by simp)
  · simp only [Option.map_eq_some'] at h
    obtain ⟨w1, hw1, rfl⟩ := h
    intro w hw
    simp only [Option.some.injEq] at hw
    subst hw
    refine foldlM_invariant (fun w => InInt64 w.Scale) KafkaWeight.storeMember
      (fun a m b ha hab => KafkaWeight_storeMember_scale a m b ha hab) _ _ _ ?_ hw1
    cases cur with
    | none => simp [KafkaWeight.zero]; decide
    | some w0 => exact hc w0 rfl
  · simp at h
/-- Storing a member keeps the scales of a product in range. -/
theorem Product_storeMember_scale (parseTime : String → Option Time) (p : Product)
    (m : List Char × JSON) (p1 : Product) (hp : p.ScaleInRange)
    (h : p.storeMember parseTime m = some p1) : p1.ScaleInRange := by
  unfold Product.storeMember at h
  split at h
  · simp only [Option.map_eq_some'] at h; obtain ⟨x, _, rfl⟩ := h; exact hp
  split at h
  · simp only [Option.map_eq_some'] at h; obtain ⟨x, _, rfl⟩ := h; exact hp
  split at h
  · simp only [Option.map_eq_some'] at h
    obtain ⟨x, hx, rfl⟩ := h
    exact storeKafkaWeight_scale _ _ _ hp hx
  split at h
  · simp only [Option.map_eq_some'] at h; obtain ⟨x, _, rfl⟩ := h; exact hp
  split at h
  · simp only [Option.map_eq_some'] at h; obtain ⟨x, _, rfl⟩ := h; exact hp
  split at h
  · simp only [Option.map_eq_some'] at h; obtain ⟨x, _, rfl⟩ := h; exact hp
  split at h
  · simp only [Option.map_eq_some'] at h; obtain ⟨x, _, rfl⟩ := h; exact hp
  split at h
  · simp only [Option.map_eq_some'] at h; obtain ⟨x, _, rfl⟩ := h; exact hp
  · simp only [Option.some.injEq] at h; subst h; exact hp
/-- A stored product has scales in range. -/
theorem storeProduct_scale (parseTime : String → Option Time) (cur r : Option Product)
    (v : JSON) (hc : ∀ p, cur = some p → p.ScaleInRange)
    (h : storeProduct parseTime cur v = some r) : ∀ p, r = some p → p.ScaleInRange := by
  unfold storeProduct at h
  split at h
  · simp only [Option.some.injEq] at h; subst h; intro p hp; exact absurd hp (by simp)
  · simp only [Option.map_eq_some'] at h
    obtain ⟨p1, hp1, rfl⟩ := h
    intro p hp
    simp only [Option.some.injEq] at hp
    subst hp
    refine foldlM_invariant Product.ScaleInRange (Product.storeMember parseTime)
      (fun a m b ha hab => Product_storeMember_scale parseTime a m b ha hab) _ _ _ ?_ hp1
    cases cur with
    | none => intro w hw; simp [Product.zero] at hw
    | some p0 => exact hc p0 rfl
  · simp at h
/-- The `after` image of a decoded message has scales in range. -/
theorem UnmarshalKafkaMessage_scale (parseTime : String → Option Time) (data : String)
    (kafkaMsg : KafkaMessage) (h : UnmarshalKafkaMessage parseTime data = some kafkaMsg) :
    ∀ after, kafkaMsg.After = some after → after.ScaleInRange := by
  have hstep : ∀ (a : KafkaMessage) (m : List Char × JSON) (b : KafkaMessage),
      (∀ p, a.After = some p → p.ScaleInRange) → a.storeMember parseTime m = some b →
      (∀ p, b.After = some p → p.ScaleInRange) := by
    intro a m b ha hab
    unfold KafkaMessage.storeMember at hab
    split at hab
    · simp only [Option.map_eq_some'] at hab; obtain ⟨x, _, rfl⟩ := hab; exact ha
    split at hab
    · simp only [Option.map_eq_some'] at hab
      obtain ⟨x, hx, rfl⟩ := hab
      exact storeProduct_scale parseTime _ _ _ ha hx
    · simp only [Option.some.injEq] at hab; subst hab; exact ha
  unfold UnmarshalKafkaMessage at h
  split at h
  · simp at h
  · simp only [Option.some.injEq] at h; subst h; intro p hp; exact absurd hp (by simp)
  · exact foldlM_invariant (fun k => ∀ p, k.After = some p → p.ScaleInRange)
      (KafkaMessage.storeMember parseTime) hstep _ _ _
      (fun p hp => absurd hp (by simp)) h
  · simp at h

/-! ### The consume loop: the three kinds of message -/

/-- Lines 154-173 on a value with an `after` image: `SaveProduct` is called on it. -/
theorem decodeAndApply_after (parseTime : String → Option Time) (env : Env) (st : State)
    (msg : Message) (kafkaMsg : KafkaMessage) (after : Product) (hv : msg.Value.length ≠ 0)
    (hm : UnmarshalKafkaMessage parseTime msg.Value = some kafkaMsg)
    (ha : kafkaMsg.After = some after) :
    decodeAndApply parseTime env st msg = st.call env (.save after) := by
  simp [decodeAndApply, hv, hm, ha]

/-- Lines 154-173 on a value with a `before` image only: `DeleteProduct` is called on its
identifier. -/
theorem decodeAndApply_before (parseTime : String → Option Time) (env : Env) (st : State)
    (msg : Message) (kafkaMsg : KafkaMessage) (before : Product) (hv : msg.Value.length ≠ 0)
    (hm : UnmarshalKafkaMessage parseTime msg.Value = some kafkaMsg)
    (ha : kafkaMsg.After = none) (hb : kafkaMsg.Before = some before) :
    decodeAndApply parseTime env st msg = st.call env (.delete before.Id) := by
  simp [decodeAndApply, hv, hm, ha, hb]

/-- Lines 154-173 on an empty value: `DeleteProduct` is called on the identifier of the
key. -/
theorem decodeAndApply_tombstone (parseTime : String → Option Time) (env : Env) (st : State)
    (msg : Message) (n : Int) (hv : msg.Value.length = 0)
    (hk : UnmarshalKafkaKey msg.Key = some { Id := n }) :
    decodeAndApply parseTime env st msg = st.call env (.delete n) := by
  simp [decodeAndApply, hv, hk]

/-- The calls recorded by an iteration that reaches a call. -/
theorem iteration_calls (parseTime : String → Option Time) (env : Env) (st : State)
    (msg : Message) (c : Call) (h : decodeAndApply parseTime env st msg = st.call env c) :
    (iteration parseTime env st (some msg)).state.calls = st.calls ++ [c] := by
  cases hr : c.run env st.products with
  | error p => rw [iteration_call_panic parseTime env st msg c p h hr]
  | ok products1 =>
    cases he : env.commitError with
    | true => rw [iteration_commit_panic parseTime env st msg c products1 h hr he]
    | false => rw [iteration_ok parseTime env st msg c products1 h hr he]

/-- The collection left by an iteration whose call returns. -/
theorem iteration_products (parseTime : String → Option Time) (env : Env) (st : State)
    (msg : Message) (c : Call) (products1 : Collection)
    (h : decodeAndApply parseTime env st msg = st.call env c)
    (hr : c.run env st.products = .ok products1) :
    (iteration parseTime env st (some msg)).state.products = products1 := by
  cases he : env.commitError with
  | true => rw [iteration_commit_panic parseTime env st msg c products1 h hr he]
  | false => rw [iteration_ok parseTime env st msg c products1 h hr he]

/-- `DeleteProduct` when the store accepts the call. -/
theorem DeleteProduct_ok (env : Env) (products : Collection) (id : Int)
    (henv : env.storeError = false) :
    DeleteProduct env products id = .ok fun k => if k = id then none else products k := by
  simp [DeleteProduct, DeleteOne, henv]

/-- The weight written by `SaveProduct` for a weight that is present. -/
theorem ToDecimal_weight (w : KafkaWeight) (weight : Option Decimal128) (hs : InInt64 w.Scale)
    (hlen : w.Value.length < 2 ^ 31) (h : KafkaWeight.ToDecimal (some w) = .ok weight) :
    ∃ bytes : List Nat, DecodeString w.Value = some bytes ∧
      (Representable (((SetBytes bytes : Int) : ℚ) * (10 : ℚ) ^ (-w.Scale)) →
        ∃ d, weight = some d ∧
          d.value = some (((SetBytes bytes : Int) : ℚ) * (10 : ℚ) ^ (-w.Scale))) ∧
      (¬ Representable (((SetBytes bytes : Int) : ℚ) * (10 : ℚ) ^ (-w.Scale)) →
        weight = none) := by
  cases hb : DecodeString w.Value with
  | none => simp [KafkaWeight.ToDecimal, hb] at h
  | some bytes =>
    refine ⟨bytes, rfl, ?_, ?_⟩
    · intro hrep
      obtain ⟨d, hd⟩ := parse_weight_complete w.Scale bytes hs hrep
      have h' := h
      rw [ToDecimal_some w bytes hb, hd] at h'
      have hwd : weight = some d := by injection h' with h'; exact h'.symm
      subst hwd
      obtain ⟨bytes', b, e, hb', _, hd', hbm, he1, he2, hv⟩ := ToDecimal_present w d hs hlen h
      rw [hb] at hb'
      injection hb' with hb'
      subst hb'
      exact ⟨d, rfl, by rw [hd', value_packDecimal128 b e hbm he1 he2, hv]⟩
    · intro hn
      cases weight with
      | none => rfl
      | some d =>
        exfalso
        obtain ⟨bytes', b, e, hb', _, _, hbm, he1, he2, hv⟩ := ToDecimal_present w d hs hlen h
        rw [hb] at hb'
        injection hb' with hb'
        subst hb'
        exact hn ⟨b, e, hbm, he1, he2, hv.symm⟩


/-- Claim C5, amended. For every state and every message whose value is not empty and is
decoded with `after` present (whatever `before` is; a weight of `after` being a text shorter
than 2^31 characters): the iteration calls `SaveProduct` on `after` and makes no other call.
Whenever that call returns, the store afterwards holds a document under `after.Id` whose
name, unit identifiers, description and timestamps are those of `after`, and whose weight is
null if `after` has no weight; if it has one, its value is valid base64 and the weight
written is the Decimal128 that denotes exactly `N * 10^(-scale)`, `N` the decoded bytes as
an unsigned big-endian integer, when a Decimal128 can hold that number, and null when none
can. -/
theorem upsert_from_after (parseTime : String → Option Time) (env : Env) (st : State)
    (msg : Message) (kafkaMsg : KafkaMessage) (after : Product) (hv : msg.Value.length ≠ 0)
    (hm : UnmarshalKafkaMessage parseTime msg.Value = some kafkaMsg)
    (ha : kafkaMsg.After = some after)
    (hlen : ∀ w, after.Weight = some w → w.Value.length < 2 ^ 31) :
    (iteration parseTime env st (some msg)).state.calls = st.calls ++ [Call.save after] ∧
    ∀ products1, SaveProduct env st.products after = .ok products1 →
      (iteration parseTime env st (some msg)).state.products = products1 ∧
      ∃ doc, products1 after.Id = some doc ∧
        doc "name" = some (.string after.Name) ∧
        doc "weight_uom_id" = some (.string after.WeightUomId) ∧
        doc "unit_uom_id" = some (.string after.UnitUomId) ∧
        doc "description" = some (.string after.Description) ∧
        doc "created_at" = some (.dateTime after.CreatedAt) ∧
        doc "updated_at" = some (.dateTime after.UpdatedAt) ∧
        (after.Weight = none → doc "weight" = some .null) ∧
        ∀ w, after.Weight = some w →
          ∃ bytes : List Nat, DecodeString w.Value = some bytes ∧
            (Representable (((SetBytes bytes : Int) : ℚ) * (10 : ℚ) ^ (-w.Scale)) →
              ∃ d, doc "weight" = some (.decimal128 d) ∧
                d.value = some (((SetBytes bytes : Int) : ℚ) * (10 : ℚ) ^ (-w.Scale))) ∧
            (¬ Representable (((SetBytes bytes : Int) : ℚ) * (10 : ℚ) ^ (-w.Scale)) →
              doc "weight" = some .null) := by
  have hd := decodeAndApply_after parseTime env st msg kafkaMsg after hv hm ha
  refine ⟨iteration_calls parseTime env st msg _ hd, ?_⟩
  intro products1 hsave
  refine ⟨iteration_products parseTime env st msg _ products1 hd hsave, ?_⟩
  obtain ⟨henv, weight, hw⟩ := SaveProduct_ok_inv env st.products products1 after hsave
  rw [SaveProduct_ok env st.products after weight henv hw] at hsave
  have h1 : products1 = fun k => if k = after.Id then
      some (applySet ((st.products after.Id).getD fun _ => none) (after.update weight))
      else st.products k := by
    injection hsave with h; exact h.symm
  obtain ⟨f1, f2, f3, f4, f5, f6, f7⟩ :=
    applySet_update ((st.products after.Id).getD fun _ => none) after weight
  refine ⟨_, by rw [h1]; exact if_pos rfl, f1, f3, f4, f5, f6, f7, ?_, ?_⟩
  · intro hnone
    rw [hnone] at hw
    have : weight = none := by
      simp only [KafkaWeight.ToDecimal] at hw
      injection hw with hw; exact hw.symm
    rw [f2, this]; rfl
  · intro w hsome
    rw [hsome] at hw
    have hs : InInt64 w.Scale :=
      UnmarshalKafkaMessage_scale parseTime msg.Value kafkaMsg hm after ha w hsome
    obtain ⟨bytes, hb, hrep, hnrep⟩ := ToDecimal_weight w weight hs (hlen w hsome) hw
    refine ⟨bytes, hb, ?_, ?_⟩
    · intro hr
      obtain ⟨d, hwd, hval⟩ := hrep hr
      exact ⟨d, by rw [f2, hwd]; rfl, hval⟩
    · intro hr
      rw [f2, hnrep hr]; rfl

/-- An iteration on a tombstone whose key is decoded to the identifier `n`. -/
theorem iteration_tombstone (parseTime : String → Option Time) (env : Env) (st : State)
    (msg : Message) (n : Int) (hv : msg.Value.length = 0)
    (hk : UnmarshalKafkaKey msg.Key = some { Id := n }) (henv : env.storeError = false) :
    (iteration parseTime env st (some msg)).state.calls = st.calls ++ [Call.delete n] ∧
    (iteration parseTime env st (some msg)).state.products n = none ∧
    (∀ k, k ≠ n → (iteration parseTime env st (some msg)).state.products k = st.products k) ∧
    (env.commitError = false →
      (iteration parseTime env st (some msg)).panic = none ∧
      (iteration parseTime env st (some msg)).state.committed =
        st.committed ++ [msg.TopicPartition]) := by
  have hd := decodeAndApply_tombstone parseTime env st msg n hv hk
  have hr : (Call.delete n).run env st.products =
      .ok fun k => if k = n then none else st.products k := DeleteProduct_ok env st.products n henv
  refine ⟨iteration_calls parseTime env st msg _ hd, ?_, ?_, ?_⟩
  · rw [iteration_products parseTime env st msg _ _ hd hr]; simp
  · intro k hkn
    rw [iteration_products parseTime env st msg _ _ hd hr]; simp [hkn]
  · intro hc
    rw [iteration_ok parseTime env st msg _ _ hd hr hc]
    exact ⟨rfl, rfl⟩

/-- Claim C7, amended. For every state and every message whose value is not empty and is
decoded with `after` absent or null and `before` present: the iteration calls
`DeleteProduct` with `before.Id` and makes no other call; when the store accepts the call,
the store afterwards has no entity with that identifier and every other entity is unchanged.
The key is not consulted: with any other key the iteration has the same result. -/
theorem delete_from_before (parseTime : String → Option Time) (env : Env) (st : State)
    (msg : Message) (kafkaMsg : KafkaMessage) (before : Product) (hv : msg.Value.length ≠ 0)
    (hm : UnmarshalKafkaMessage parseTime msg.Value = some kafkaMsg)
    (ha : kafkaMsg.After = none) (hb : kafkaMsg.Before = some before)
    (henv : env.storeError = false) :
    (iteration parseTime env st (some msg)).state.calls = st.calls ++ [Call.delete before.Id] ∧
    (iteration parseTime env st (some msg)).state.products before.Id = none ∧
    (∀ k, k ≠ before.Id →
      (iteration parseTime env st (some msg)).state.products k = st.products k) ∧
    (∀ key : String,
      iteration parseTime env st (some { msg with Key := key }) =
        iteration parseTime env st (some msg)) := by
  have hd := decodeAndApply_before parseTime env st msg kafkaMsg before hv hm ha hb
  have hr : (Call.delete before.Id).run env st.products =
      .ok fun k => if k = before.Id then none else st.products k :=
    DeleteProduct_ok env st.products before.Id henv
  refine ⟨iteration_calls parseTime env st msg _ hd, ?_, ?_, ?_⟩
  · rw [iteration_products parseTime env st msg _ _ hd hr]; simp
  · intro k hkn
    rw [iteration_products parseTime env st msg _ _ hd hr]; simp [hkn]
  · intro key
    simp only [iteration, decodeAndApply, hv, if_false]

/-! ### The text of the key `{"id": n}` -/

/-- The code of a digit character. -/
theorem digitChar_toNat (d : Nat) (h : d < 10) : (digitChar d).toNat = 48 + d := by
  interval_cases d <;> rfl
/-- A digit character is a digit. -/
theorem digitChar_isDigit (d : Nat) (h : d < 10) : isDigit (digitChar d) = true := by
  interval_cases d <;> rfl
/-- A nonzero digit opens a number literal. -/
theorem digitChar_lexReady (d : Nat) (h1 : 1 ≤ d) (h : d < 10) :
    lexReady (digitChar d) = some (.num [digitChar d] .int, []) := by
  interval_cases d <;> rfl
/-- A digit continues the integer part of a number literal. -/
theorem digitChar_next_int (c : Char) (h : isDigit c = true) :
    NumState.next .int c = some .int := by
  simp [NumState.next, h]
/-- A nonzero digit after the minus sign opens the integer part. -/
theorem digitChar_next_neg (d : Nat) (h1 : 1 ≤ d) (h : d < 10) :
    NumState.next .neg (digitChar d) = some .int := by
  interval_cases d <;> rfl
/-- A run of digits that ends at a closing brace is one number token. -/
theorem lex_digits (cs : List Char) (hcs : ∀ c ∈ cs, isDigit c = true) :
    ∀ raw : List Char, lex (.num raw .int) (cs ++ ['\x7d']) =
      some [Token.number (raw.reverse ++ cs), Token.rbrace] := by
  induction cs with
  | nil => intro raw; simp [lex, lexStep, NumState.next, NumState.accepting, lexReady, isSpace, isDigit]
  | cons c cs ih =>
    intro raw
    have hc : isDigit c = true := hcs c (List.mem_cons_self _ _)
    have := ih (fun x hx => hcs x (List.mem_cons_of_mem _ hx)) (c :: raw)
    simp only [List.cons_append, lex, lexStep, digitChar_next_int c hc]
    change Option.map _ (lex _ (cs ++ ['\x7d'])) = _
    rw [this]
    simp
/-- The digits of a number are digit characters, and they are read back as the number. -/
theorem foldl_digits (l : List Nat) (hl : ∀ d ∈ l, d < 10) :
    (l.reverse.map digitChar).foldl (fun acc c => acc * 10 + (c.toNat - 48)) 0 =
      Nat.ofDigits 10 l := by
  induction l with
  | nil => simp
  | cons d t ih =>
    have hd : d < 10 := hl d (List.mem_cons_self _ _)
    have iht := ih (fun x hx => hl x (List.mem_cons_of_mem _ hx))
    simp only [List.reverse_cons, List.map_append, List.map_cons, List.map_nil,
      List.foldl_append, List.foldl_cons, List.foldl_nil, iht, digitChar_toNat d hd,
      Nat.ofDigits_cons]
    omega
/-- The digits of a positive number are read back as the number. -/
theorem parseDigits_digits (m : Nat) (hm : m ≠ 0) :
    parseDigits ((Nat.digits 10 m).reverse.map digitChar) = some m := by
  have hl : ∀ d ∈ Nat.digits 10 m, d < 10 := fun d hd => Nat.digits_lt_base (by decide) hd
  have hne : (Nat.digits 10 m).reverse.map digitChar ≠ [] := by
    simp [Nat.digits_ne_nil_iff_ne_zero, hm]
  have hall : ((Nat.digits 10 m).reverse.map digitChar).all isDigit = true := by
    simp only [List.all_eq_true, List.mem_map, List.mem_reverse]
    rintro c ⟨d, hd, rfl⟩
    exact digitChar_isDigit d (hl d hd)
  unfold parseDigits
  rw [if_pos ⟨hne, hall⟩, foldl_digits _ hl, Nat.ofDigits_digits]
/-- The leading digit of a positive number is not zero. -/
theorem digits_reverse_cons (m : Nat) (hm : m ≠ 0) :
    ∃ d rest, (Nat.digits 10 m).reverse = d :: rest ∧ 1 ≤ d ∧ d < 10 ∧ ∀ x ∈ rest, x < 10 := by
  have hl : ∀ d ∈ Nat.digits 10 m, d < 10 := fun d hd => Nat.digits_lt_base (by decide) hd
  have hne : Nat.digits 10 m ≠ [] := Nat.digits_ne_nil_iff_ne_zero.mpr hm
  have hlast := Nat.getLast_digit_ne_zero 10 hm
  cases hr : (Nat.digits 10 m).reverse with
  | nil => exact absurd (List.reverse_eq_nil_iff.mp hr) hne
  | cons d rest =>
    have hmem : ∀ x ∈ d :: rest, x < 10 := by
      intro x hx
      rw [← hr] at hx
      exact hl x (List.mem_reverse.mp hx)
    have hd : (Nat.digits 10 m).getLast hne = d := by
      have h1 : Nat.digits 10 m = rest.reverse ++ [d] := by
        rw [← List.reverse_reverse (Nat.digits 10 m), hr, List.reverse_cons]
      simp only [h1, List.getLast_append_singleton]
    refine ⟨d, rest, rfl, ?_, hmem d (List.mem_cons_self _ _),
      fun x hx => hmem x (List.mem_cons_of_mem _ hx)⟩
    rw [hd] at hlast
    omega
/-- The numeral of a nonzero integer: sign, leading digit, further digits. -/
theorem decimalNumeral_nonzero (n : Int) (hn : n ≠ 0) :
    ∃ d rest, 1 ≤ d ∧ d < 10 ∧ (∀ c ∈ rest, isDigit c = true) ∧
      (Nat.digits 10 n.natAbs).reverse.map digitChar = digitChar d :: rest ∧
      decimalNumeral n = if n < 0 then '-' :: digitChar d :: rest else digitChar d :: rest := by
  obtain ⟨d, rest, hr, h1, h10, hrest⟩ := digits_reverse_cons n.natAbs (Int.natAbs_ne_zero.mpr hn)
  refine ⟨d, rest.map digitChar, h1, h10, ?_, by rw [hr]; rfl, ?_⟩
  · intro c hc
    obtain ⟨x, hx, rfl⟩ := List.mem_map.mp hc
    exact digitChar_isDigit x (hrest x hx)
  · simp only [decimalNumeral, hn, if_false, hr, List.map_cons]
/-- The lexer reads a numeral before a closing brace as one number token. -/
theorem lex_numeral (n : Int) :
    lex .ready (decimalNumeral n ++ ['\x7d']) =
      some [Token.number (decimalNumeral n), Token.rbrace] := by
  by_cases hn : n = 0
  · subst hn; rfl
  · obtain ⟨d, rest, h1, h10, hrest, _, hnum⟩ := decimalNumeral_nonzero n hn
    rw [hnum]
    by_cases hneg : n < 0
    · simp only [hneg, if_true, List.cons_append, lex, lexStep]
      have h0 : lexReady '-' = some (.num ['-'] .neg, []) := rfl
      simp only [h0, digitChar_next_neg d h1 h10]
      change Option.map _ (Option.map _ (lex _ (rest ++ ['\x7d']))) = _
      rw [lex_digits rest hrest]
      simp
    · simp only [hneg, if_false, List.cons_append, lex, lexStep, digitChar_lexReady d h1 h10]
      change Option.map _ (lex _ (rest ++ ['\x7d'])) = _
      rw [lex_digits rest hrest]
      simp
/-- `strconv.ParseInt` reads a numeral of the range back as the integer. -/
theorem ParseInt_numeral (n : Int) (hr : InInt64 n) : ParseInt (decimalNumeral n) = some n := by
  by_cases hn : n = 0
  · subst hn; decide
  · obtain ⟨d, rest, h1, h10, _, hdig, hnum⟩ := decimalNumeral_nonzero n hn
    have hpd := parseDigits_digits n.natAbs (Int.natAbs_ne_zero.mpr hn)
    rw [hdig] at hpd
    have hc1 : digitChar d ≠ '-' := by
      intro h; have := congrArg Char.toNat h
      rw [digitChar_toNat d h10] at this
      have h45 : ('-' : Char).toNat = 45 := rfl
      omega
    have hc2 : digitChar d ≠ '+' := by
      intro h; have := congrArg Char.toNat h
      rw [digitChar_toNat d h10] at this
      have h43 : ('+' : Char).toNat = 43 := rfl
      omega
    rw [hnum]
    by_cases hneg : n < 0
    · have habs : -|n| = n := by rw [abs_of_neg hneg, neg_neg]
      simp [hneg, ParseInt, hpd, habs, hr]
    · have habs : (n.natAbs : Int) = n := by omega
      simp [hneg, ParseInt, hc1, hc2, hpd, habs, hr]
/-- The lexer on the opening of the key `{"id": n}`. -/
theorem lex_idKey_opening (rest : List Char) :
    lex .ready ('\x7b' :: '"' :: 'i' :: 'd' :: '"' :: ':' :: ' ' :: rest) =
      (lex .ready rest).map fun toks =>
        Token.lbrace :: Token.string ['i', 'd'] :: Token.colon :: toks := by
  have key : ∀ x : Option (List Token),
      (x.map fun toks => Token.lbrace :: Token.string ['i', 'd'] :: Token.colon :: toks) =
      Option.map (fun r => [Token.lbrace] ++ r) (Option.map (fun r => [] ++ r)
        (Option.map (fun r => [] ++ r) (Option.map (fun r => [] ++ r)
          (Option.map (fun r => [Token.string ['i', 'd']] ++ r)
            (Option.map (fun r => [Token.colon] ++ r) (Option.map (fun r => [] ++ r) x)))))) := by
    intro x; cases x <;> rfl
  rw [key]
  rfl
/-- The key `{"id": n}` is decoded to the identifier `n`, for every `n` of the range of
`int64`. -/
theorem UnmarshalKafkaKey_idKey (n : Int) (hr : InInt64 n) :
    UnmarshalKafkaKey (idKey n) = some { Id := n } := by
  have hlex : lex .ready (idKey n).data =
      some [Token.lbrace, Token.string ['i', 'd'], Token.colon,
        Token.number (decimalNumeral n), Token.rbrace] := by
    have : (idKey n).data = '\x7b' :: '"' :: 'i' :: 'd' :: '"' :: ':' :: ' ' ::
        (decimalNumeral n ++ ['\x7d']) := by
      simp [idKey]
    rw [this, lex_idKey_opening, lex_numeral]
    rfl
  have hparse : parseJSON (idKey n) =
      some (.object [(['i', 'd'], .number (decimalNumeral n))]) := by
    unfold parseJSON
    rw [hlex]
    rfl
  unfold UnmarshalKafkaKey
  rw [hparse]
  have hf : fieldMatches "id" ['i', 'd'] = true := by decide
  simp only [List.foldlM, KafkaKey.storeMember, hf, if_true, storeInt, ParseInt_numeral n hr]
  rfl

/-- The key `{"id": 7}` as a text. -/
theorem idKey_seven : idKey 7 = "\x7b\"id\": 7\x7d" := by
  simp [idKey, decimalNumeral, digitChar]

/-- The key `{"id": 9223372036854775808}` as a text. -/
theorem idKey_huge : idKey 9223372036854775808 = "\x7b\"id\": 9223372036854775808\x7d" := by
  have h : Nat.digits 10 9223372036854775808 =
      [8, 0, 8, 5, 7, 7, 4, 5, 8, 6, 3, 0, 2, 7, 3, 3, 2, 2, 9] := by norm_num
  simp [idKey, decimalNumeral, digitChar, h]

/-- Claim C6, amended. For every state and every integer `n` of the range of `int64`, an
iteration on a message with an empty value and the key `{"id": n}` calls `DeleteProduct(n)`,
with the identifier decoded from the key, and makes no other call; when the store accepts
the call, the store afterwards has no entity with `_id = n`, whether or not one was present
before, and every other entity is unchanged; when the commit succeeds as well, the
iteration completes and commits the position, in both cases. -/
theorem tombstone_deletes_key_id (parseTime : String → Option Time) (env : Env) (st : State)
    (msg : Message) (n : Int) (hn : InInt64 n) (hv : msg.Value.length = 0)
    (hk : msg.Key = idKey n) (henv : env.storeError = false) :
    (iteration parseTime env st (some msg)).state.calls = st.calls ++ [Call.delete n] ∧
    (iteration parseTime env st (some msg)).state.products n = none ∧
    (∀ k, k ≠ n → (iteration parseTime env st (some msg)).state.products k = st.products k) ∧
    (env.commitError = false →
      (iteration parseTime env st (some msg)).panic = none ∧
      (iteration parseTime env st (some msg)).state.committed =
        st.committed ++ [msg.TopicPartition]) :=
  iteration_tombstone parseTime env st msg n hv (by rw [hk]; exact UnmarshalKafkaKey_idKey n hn)
    henv

/-- Counterexample to claim C6 as stated: for the integer 2^63, which is no `int64`, the
key `{"id": 9223372036854775808}` is not decoded; the iteration on the tombstone with this
key ends in the panic of the decoding step, calls nothing and commits nothing. -/
theorem tombstone_out_of_range_counterexample :
    tombstoneHuge.Value.length = 0 ∧ tombstoneHuge.Key = idKey (2 ^ 63) ∧
    (iteration noTimes noErrors emptyState (some tombstoneHuge)).panic =
      some Panic.unmarshalKey ∧
    (iteration noTimes noErrors emptyState (some tombstoneHuge)).state.calls = [] ∧
    (iteration noTimes noErrors emptyState (some tombstoneHuge)).state.committed = [] :=
  ⟨by decide, idKey_huge.symm, by decide, by decide, by decide⟩

/-! ### Counterexamples to statements that do not hold -/

/-- Counterexample to claim C2 as stated: on the tombstone with key `{"id": 7}`, when
`CommitMessage` returns an error, `DeleteProduct(7)` was called and returned, and yet the
position of the message is not committed. -/
theorem commit_iff_applied_counterexample :
    ¬ ((iteration noTimes commitFails emptyState (some tombstoneSeven)).state.committed =
        emptyState.committed ++ [tombstoneSeven.TopicPartition] ↔
      ∃ call products1,
        (iteration noTimes commitFails emptyState (some tombstoneSeven)).state.calls =
          emptyState.calls ++ [call] ∧
        call.run commitFails emptyState.products = .ok products1) := by
  intro h
  have hl : (iteration noTimes commitFails emptyState (some tombstoneSeven)).state.committed ≠
      emptyState.committed ++ [tombstoneSeven.TopicPartition] := by decide
  exact hl (h.mpr ⟨Call.delete 7, _, by decide, rfl⟩)
/-- Counterexample to claim C3 as stated: a tombstone whose key `{}` has no id is decoded
without an error to the identifier 0; the iteration does not panic, calls
`DeleteProduct(0)`, removes the document stored under 0 and commits the position.  The
value `{"before":{},"after":null}`, whose before image has no id, leads to the same call. -/
theorem missing_id_counterexample :
    UnmarshalKafkaKey tombstoneNoId.Key = some { Id := 0 } ∧
    (iteration noTimes noErrors stateWithZero (some tombstoneNoId)).panic = none ∧
    (iteration noTimes noErrors stateWithZero (some tombstoneNoId)).state.calls =
      [Call.delete 0] ∧
    (stateWithZero.products 0).isSome = true ∧
    ((iteration noTimes noErrors stateWithZero (some tombstoneNoId)).state.products 0).isSome
      = false ∧
    (iteration noTimes noErrors stateWithZero (some tombstoneNoId)).state.committed =
      [tombstoneNoId.TopicPartition] ∧
    (iteration noTimes noErrors stateWithZero (some deleteNoId)).panic = none ∧
    (iteration noTimes noErrors stateWithZero (some deleteNoId)).state.calls =
      [Call.delete 0] := by
  refine ⟨by decide, by decide, by decide, by decide, by decide, by decide, by decide, by decide⟩
/-- Counterexample to claim C7 as stated: the value `{"before": null, "after": null}` is
not empty and is decoded with `after` null, and the iteration ends in the run-time panic of
`kafkaMsg.Before.Id` without any call of `DeleteProduct`. -/
theorem delete_without_before_counterexample :
    noImages.Value.length ≠ 0 ∧
    UnmarshalKafkaMessage noTimes noImages.Value = some { Before := none, After := none } ∧
    (iteration noTimes noErrors emptyState (some noImages)).panic =
      some Panic.nilDereference ∧
    (iteration noTimes noErrors emptyState (some noImages)).state.calls = [] := by
  refine ⟨by decide, by decide, by decide, by decide⟩

/-! ### The statements at the sample data -/

/-- `SaveProduct` of the widget on the empty collection. -/
theorem SaveProduct_widget :
    SaveProduct noErrors emptyState.products widget = .ok widgetStored :=
  SaveProduct_ok noErrors emptyState.products widget _ rfl ToDecimal_five
/-- `SaveProduct` of the product with the unrepresentable weight on the empty collection. -/
theorem SaveProduct_tiny :
    SaveProduct noErrors emptyState.products tinyProduct =
      .ok fun k => if k = 5 then some (applySet (fun _ => none) (tinyProduct.update none))
        else none :=
  SaveProduct_ok noErrors emptyState.products tinyProduct _ rfl ToDecimal_tiny
/-- Claim C4 at the product 5 of weight 1 x 10^(-7000), on the empty collection. -/
theorem SaveProduct_unrepresentable_weight_witness :
    KafkaWeight.ToDecimal tinyProduct.Weight = .ok none ∧
    ∃ products1 doc, SaveProduct noErrors emptyState.products tinyProduct = .ok products1 ∧
      products1 tinyProduct.Id = some doc ∧
      doc "weight" = some .null ∧
      doc "name" = some (.string tinyProduct.Name) ∧
      doc "weight_uom_id" = some (.string tinyProduct.WeightUomId) ∧
      doc "unit_uom_id" = some (.string tinyProduct.UnitUomId) ∧
      doc "description" = some (.string tinyProduct.Description) ∧
      doc "created_at" = some (.dateTime tinyProduct.CreatedAt) ∧
      doc "updated_at" = some (.dateTime tinyProduct.UpdatedAt) :=
  SaveProduct_unrepresentable_weight noErrors emptyState.products tinyProduct
    { Scale := 7000, Value := "AQ==" } [1] rfl (by decide) (by decide) (by decide)
    not_representable_tiny rfl
/-- Claim C8 at the widget, saved on the empty collection. -/
theorem SaveProduct_idempotent_witness :
    SaveProduct noErrors widgetStored widget = .ok widgetStored ∧
      (∃ doc, widgetStored widget.Id = some doc) ∧
      ∀ k, k ≠ widget.Id → widgetStored k = emptyState.products k :=
  SaveProduct_idempotent noErrors emptyState.products widgetStored widget SaveProduct_widget
/-- Claim C9 at the identifier 0, on the collection that holds a document under 0. -/
theorem DeleteProduct_idempotent_witness :
    ∃ products1, DeleteProduct noErrors stateWithZero.products 0 = .ok products1 ∧
      DeleteProduct noErrors products1 0 = .ok products1 ∧ products1 0 = none ∧
      (∀ k, k ≠ 0 → products1 k = stateWithZero.products k) ∧
      (stateWithZero.products 0 = none → products1 = stateWithZero.products) :=
  DeleteProduct_idempotent noErrors stateWithZero.products 0 rfl
/-- Claim C3, amended, at the tombstone whose key `{"id": "7"}` makes `json.Unmarshal`
return an error. -/
theorem decode_error_is_fatal_witness :
    ((iteration noTimes noErrors stateWithZero (some tombstoneBadId)).panic =
        some Panic.unmarshalKey ∨
      (iteration noTimes noErrors stateWithZero (some tombstoneBadId)).panic =
        some Panic.unmarshalValue) ∧
    (iteration noTimes noErrors stateWithZero (some tombstoneBadId)).state.calls =
      stateWithZero.calls ∧
    (iteration noTimes noErrors stateWithZero (some tombstoneBadId)).state.products =
      stateWithZero.products ∧
    (iteration noTimes noErrors stateWithZero (some tombstoneBadId)).state.committed =
      stateWithZero.committed :=
  decode_error_is_fatal noTimes noErrors stateWithZero tombstoneBadId
    (Or.inl ⟨by decide, by decide⟩)
/-- Claim C6, amended, at the tombstone with key `{"id": 7}`. -/
theorem tombstone_deletes_key_id_witness :
    (iteration noTimes noErrors emptyState (some tombstoneSeven)).state.calls =
      emptyState.calls ++ [Call.delete 7] ∧
    (iteration noTimes noErrors emptyState (some tombstoneSeven)).state.products 7 = none ∧
    (∀ k, k ≠ 7 →
      (iteration noTimes noErrors emptyState (some tombstoneSeven)).state.products k =
        emptyState.products k) ∧
    (noErrors.commitError = false →
      (iteration noTimes noErrors emptyState (some tombstoneSeven)).panic = none ∧
      (iteration noTimes noErrors emptyState (some tombstoneSeven)).state.committed =
        emptyState.committed ++ [tombstoneSeven.TopicPartition]) :=
  tombstone_deletes_key_id noTimes noErrors emptyState tombstoneSeven 7 (by decide) (by decide)
    idKey_seven.symm rfl
/-- Claim C7, amended, at the value `{"before": {"id": 3}, "after": null}`. -/
theorem delete_from_before_witness :
    (iteration noTimes noErrors emptyState (some deleteThree)).state.calls =
      emptyState.calls ++ [Call.delete 3] ∧
    (iteration noTimes noErrors emptyState (some deleteThree)).state.products 3 = none ∧
    (∀ k, k ≠ 3 →
      (iteration noTimes noErrors emptyState (some deleteThree)).state.products k =
        emptyState.products k) ∧
    (∀ key : String,
      iteration noTimes noErrors emptyState (some { deleteThree with Key := key }) =
        iteration noTimes noErrors emptyState (some deleteThree)) :=
  delete_from_before noTimes noErrors emptyState deleteThree
    { Before := some { Product.zero with Id := 3 }, After := none }
    { Product.zero with Id := 3 } (by decide) (by decide) rfl rfl rfl
/-- Claim C5, amended, at the value that upserts the widget: entity 5 is present with the
name "Widget" and a weight that denotes 500 x 10^(-2). -/
theorem upsert_from_after_witness :
    (iteration noTimes noErrors emptyState (some upsertWidget)).state.calls =
      [Call.save widget] ∧
    ∃ doc d, (iteration noTimes noErrors emptyState (some upsertWidget)).state.products 5 =
        some doc ∧
      doc "name" = some (.string "Widget") ∧ doc "weight" = some (.decimal128 d) ∧
      d.value = some ((500 : ℚ) * (10 : ℚ) ^ (-(2 : Int))) := by
  obtain ⟨hcalls, hsave⟩ := upsert_from_after noTimes noErrors emptyState upsertWidget
    { Before := none, After := some widget } widget (by decide) (by decide) rfl
    (by intro w hw; have : w = { Scale := 2, Value := "AfQ=" } := by
          simp [widget] at hw; exact hw.symm
        subst this; decide)
  refine ⟨hcalls, ?_⟩
  obtain ⟨hprod, doc, hdoc, hname, _, _, _, _, _, _, hweight⟩ := hsave widgetStored SaveProduct_widget
  obtain ⟨bytes, hb, hrep, _⟩ := hweight { Scale := 2, Value := "AfQ=" } rfl
  have hbytes : bytes = [1, 244] := by
    have h0 : DecodeString "AfQ=" = some [1, 244] := by decide
    have h1 : DecodeString "AfQ=" = some bytes := hb
    rw [h0] at h1
    injection h1 with h1; exact h1.symm
  subst hbytes
  have hN : ((SetBytes [1, 244] : Nat) : Int) = 500 := by decide
  have hq : ((((SetBytes [1, 244] : Nat) : Int) : ℚ)) = 500 := by rw [hN]; norm_num
  have hscale : (({ Scale := 2, Value := "AfQ=" } : KafkaWeight).Scale) = 2 := rfl
  rw [hq, hscale] at hrep
  obtain ⟨d, hd, hval⟩ := hrep ⟨500, -2, by decide, by decide, by decide, by norm_num⟩
  exact ⟨doc, d, by rw [hprod]; exact hdoc, hname, hd, hval⟩
/-- Counterexample to claim C5 as stated.  Both values are decoded with `after` present.
With the weight 1 x 10^(-7000), of valid base64, the iteration completes and the record 5
has the weight null, not a number.  With a weight whose value is not base64, the iteration
ends in the panic of `ToDecimal` and the store holds no record 5. -/
theorem upsert_weight_counterexample :
    (UnmarshalKafkaMessage noTimes upsertTiny.Value =
        some { Before := none, After := some tinyProduct } ∧
      DecodeString "AQ==" = some [1] ∧
      (iteration noTimes noErrors emptyState (some upsertTiny)).panic = none ∧
      ((iteration noTimes noErrors emptyState (some upsertTiny)).state.products 5).bind
          (fun doc => doc "weight") = some .null) ∧
    (UnmarshalKafkaMessage noTimes upsertBadBase64.Value =
        some { Before := none, After := some badProduct } ∧
      (iteration noTimes noErrors emptyState (some upsertBadBase64)).panic =
        some Panic.base64 ∧
      ((iteration noTimes noErrors emptyState (some upsertBadBase64)).state.products 5).isSome
        = false) := by
  have hd := decodeAndApply_after noTimes noErrors emptyState upsertTiny
    { Before := none, After := some tinyProduct } tinyProduct (by decide) (by decide) rfl
  have hit := iteration_ok noTimes noErrors emptyState upsertTiny _ _ hd SaveProduct_tiny rfl
  refine ⟨⟨by decide, by decide, by rw [hit], ?_⟩, by decide, by decide, by decide⟩
  rw [hit]
  decide

end ProductSink
